import Mathlib

/-!
Verification of the k-context inference-routing core against its shallow
embedding in Lean.

The embedded source files:
- `src/k-inference.js` : query classifier (`classifyQuery` and helpers) and
  tier selector (`selectHandler`);
- `src/k-pool.js` : credential pool manager (`addKey`, `getNextKey`,
  `recordUsage`, `markUnhealthy`, `resetHealth`);
- `src/k-execute.js` : executor (`execute`, `executeLocal`) and its builtin
  fallback-template table;
- `src/k-chain.js` : append-only hash-linked audit chain (`logExchange`,
  `verifyChain`, `hashBlock`).

JavaScript objects that are treated as open dictionaries by the source
(chain blocks, the pool usage map, the metadata argument of `logExchange`)
are embedded as insertion-ordered association lists with JS assignment
semantics (update the existing key in place, else append).  Effectful
steps (HTTP transports, the random generator, the clock) are passed in as
explicit arguments.  The SHA-256 digest is abstracted by a hash-function
parameter `H`; the undefined-dropping behaviour of `JSON.stringify`, which
the chain code relies on, is modelled explicitly.
-/

namespace KContext

/-! ## Small string utilities (JS semantics) -/

/-- Boolean list-infix test used to model both `RegExp.test` with a literal
pattern and `String.includes`. -/
def isInfixB : List Char → List Char → Bool
  | n, [] => n.isEmpty
  | n, c :: t => n.isPrefixOf (c :: t) || isInfixB n t

/-- `hay` contains `needle` as a substring. -/
def containsSub (hay needle : String) : Bool :=
  isInfixB needle.data hay.data

/-- ASCII lower-casing, modelling `String.prototype.toLowerCase` on the
ASCII queries the pattern tables target. -/
def jsToLower (s : String) : String := String.mk (s.data.map Char.toLower)

/-- A case-insensitive literal-pattern test: every regex literal in the
source tables is a lower-case literal, so `/pat/i.test(q)` is containment
of `pat` in the lower-cased `q`. -/
def testCI (pat : String) (q : String) : Bool := containsSub (jsToLower q) pat

/-- The character for a decimal digit. -/
def digitChar (d : Nat) : Char := Char.ofNat (48 + d)

/-- Fuel-driven accumulation of the decimal digits of `n`, most
significant first; `fuel ≥ n` suffices. -/
def natDecAux : Nat → Nat → List Char
  | 0, _ => []
  | fuel + 1, n =>
    if n = 0 then [] else natDecAux fuel (n / 10) ++ [digitChar (n % 10)]

/-- Decimal rendering of a natural number, as JS template literals render
`Date.now()` and block ids. -/
def natDec (n : Nat) : String :=
  if n = 0 then "0" else String.mk (natDecAux n n)

/-! ## Classifier (`src/k-inference.js`) -/

/-- `QUERY_PATTERNS[suit].patterns`, the weight-2 regex literals. -/
def suitPatterns : String → List String
  | "hearts" => ["feel", "emotion", "relationship", "friend", "love",
      "sad", "happy", "angry", "afraid", "lonely",
      "connect", "understand", "help me", "support"]
  | "spades" => ["analyze", "explain", "why", "how does", "logic",
      "reason", "think", "understand", "compare", "difference",
      "debug", "error", "fix", "solve", "problem",
      "bug", "issue", "broken", "wrong", "code"]
  | "diamonds" => ["data", "store", "save", "database", "schema",
      "type", "structure", "format", "json", "api",
      "what is", "define", "list", "show"]
  | "clubs" => ["create", "build", "make", "generate", "write",
      "run", "execute", "do", "action", "start",
      "deploy", "send", "post", "update", "delete"]
  | _ => []

/-- `QUERY_PATTERNS[suit].keywords`, the weight-1 substring keywords. -/
def suitKeywords : String → List String
  | "hearts" => ["feel", "emotion", "relationship", "friend", "connect",
      "understand", "support", "care"]
  | "spades" => ["analyze", "explain", "logic", "reason", "think", "compare",
      "debug", "solve", "problem", "bug", "fix", "error", "issue", "code"]
  | "diamonds" => ["data", "store", "save", "database", "type", "structure",
      "format", "define", "list"]
  | "clubs" => ["create", "build", "make", "generate", "write", "run",
      "execute", "action", "deploy"]
  | _ => []

/-- Per-suit score: weight 2 per regex-pattern hit plus weight 1 per
keyword substring hit, both case-insensitive. -/
def suitScore (suit : String) (q : String) : Nat :=
  2 * ((suitPatterns suit).filter (fun p => testCI p q)).length
    + ((suitKeywords suit).filter (fun k => testCI k q)).length

/-- Insert into a descending-sorted list of scored suits, after all entries
with a greater-or-equal score: this reproduces a stable descending sort. -/
def insertDesc (x : String × Nat) : List (String × Nat) → List (String × Nat)
  | [] => [x]
  | y :: ys => if y.2 ≥ x.2 then y :: insertDesc x ys else x :: y :: ys

/-- Stable descending sort by score, modelling
`Object.entries(scores).sort((a, b) => b[1] - a[1])`. -/
def sortDescBy : List (String × Nat) → List (String × Nat)
  | [] => []
  | x :: xs => insertDesc x (sortDescBy xs)

/-- `classifyQuerySuit`: score the four suits, sort descending, and return
`unknown` on a zero top score or a top-two tie. -/
def classifyQuerySuit (q : String) : String :=
  let scores := [("hearts", suitScore "hearts" q), ("spades", suitScore "spades" q),
                 ("diamonds", suitScore "diamonds" q), ("clubs", suitScore "clubs" q)]
  match sortDescBy scores with
  | (s0, v0) :: (_, v1) :: _ =>
    if v0 = 0 then "unknown"
    else if v0 = v1 then "unknown"
    else s0
  | _ => "unknown"

/-- `POLARITY_PATTERNS.light`. -/
def lightPatterns : List String :=
  ["please", "help", "would", "could", "thanks", "good", "great", "love"]

/-- `POLARITY_PATTERNS.dark`. -/
def darkPatterns : List String :=
  ["hate", "angry", "frustrated", "broken", "wrong", "fail", "error", "bug"]

/-- `classifyQueryPolarity`: light vs dark pattern counts. -/
def classifyQueryPolarity (q : String) : String :=
  let lightScore := (lightPatterns.filter (fun p => testCI p q)).length
  let darkScore := (darkPatterns.filter (fun p => testCI p q)).length
  if lightScore = darkScore then "~"
  else if lightScore > darkScore then "+" else "-"

/-- `RANK_INDICATORS.low`. -/
def lowIndicators : List String := ["simple", "basic", "quick", "just", "only"]

/-- `RANK_INDICATORS.high`. -/
def highIndicators : List String :=
  ["complex", "advanced", "architecture", "system", "design"]

/-- Number of maximal whitespace runs in a character list. -/
def wsRuns : List Char → Nat
  | [] => 0
  | c :: t =>
    if c.isWhitespace then
      match t with
      | [] => 1
      | d :: _ => if d.isWhitespace then wsRuns t else 1 + wsRuns t
    else wsRuns t

/-- `query.split(/\s+/).length`: splitting at the maximal whitespace runs
yields one part more than the number of runs (JS keeps the empty leading
and trailing parts produced by boundary whitespace). -/
def jsWordCount (q : String) : Nat := wsRuns q.data + 1

/-- `classifyQueryRank`: start at 7, −2 per low indicator, +2 per high
indicator, adjust by word count, clamp to `[1, 13]`. -/
def classifyQueryRank (q : String) : Int :=
  let base : Int := 7 - 2 * ((lowIndicators.filter (fun p => testCI p q)).length : Int)
      + 2 * ((highIndicators.filter (fun p => testCI p q)).length : Int)
  let wc := jsWordCount q
  let score := if wc > 30 then base + 2 else if wc < 5 then base - 1 else base
  max 1 (min 13 score)

/-- `describeKVector`. -/
def describeKVector (suit polarity : String) (rank : Int) : String :=
  let suitDesc :=
    if suit = "hearts" then "emotional/relational"
    else if suit = "spades" then "analytical/logical"
    else if suit = "diamonds" then "data/information"
    else if suit = "clubs" then "action/creation"
    else "uncertain domain"
  let polarityDesc :=
    if polarity = "+" then "constructive"
    else if polarity = "-" then "challenging" else "neutral"
  let rankDesc := if rank ≤ 4 then "simple" else if rank ≤ 9 then "moderate" else "complex"
  polarityDesc ++ " " ++ rankDesc ++ " " ++ suitDesc

/-- The escalation verdict `{escalate, reason}` attached to a tag. -/
structure Escalation where
  escalate : Bool
  reason : String
deriving DecidableEq, Repr

/-- The `escalationTriggers` table of `shouldEscalate`. -/
def escalationTriggers : List String :=
  ["novel", "new approach", "never been done",
   "synthesis", "combine", "integrate",
   "what if", "imagine", "hypothetically"]

/-- Whether any synthesis trigger matches the query. -/
def synthesisTriggered (q : String) : Bool :=
  escalationTriggers.any (fun t => testCI t q)

/-- `shouldEscalate(query, suit, rank)`: priority-ordered early returns. -/
def shouldEscalate (query suit : String) (rank : Int) : Escalation :=
  if suit = "unknown" then ⟨true, "uncertain_domain"⟩
  else if rank ≥ 11 then ⟨true, "high_complexity"⟩
  else if synthesisTriggered query then ⟨true, "requires_synthesis"⟩
  else ⟨false, "routable"⟩

/-- A K-vector tag as produced by `classifyQuery`. -/
structure Tag where
  suit : String
  polarity : String
  rank : Int
  shorthand : String
  description : String
  escalation : Escalation
deriving DecidableEq, Repr

/-- First character of a suit name, upper-cased (`suit.charAt(0).toUpperCase()`);
`charAt` of an empty string is the empty string. -/
def suitInitial (suit : String) : String :=
  match suit.data with
  | [] => ""
  | c :: _ => String.singleton c.toUpper

/-- `classifyQuery(query)`. -/
def classifyQuery (q : String) : Tag :=
  let suit := classifyQuerySuit q
  let polarity := classifyQueryPolarity q
  let rank := classifyQueryRank q
  { suit := suit
    polarity := polarity
    rank := rank
    shorthand := polarity ++ (if rank < 0 then "-" ++ natDec (-rank).toNat else natDec rank.toNat)
      ++ suitInitial suit
    description := describeKVector suit polarity rank
    escalation := shouldEscalate q suit rank }

/-! ## Tier selector (`selectHandler` in `src/k-inference.js`) -/

/-- The handler descriptor `{tier, reason, template}`. -/
structure Handler where
  tier : String
  reason : String
  template : Option String
deriving DecidableEq, Repr

/-- The source labels the pooled-external-API tier `"opus"`: in `execute`
every tier other than `"template"` and `"local"` is dispatched to
`executeAPI`, so `"opus"` is the tier the specification calls `api`. -/
def apiTier : String := "opus"

/-- `polarity === '+' ? 'light' : polarity === '-' ? 'dark' : 'neutral'`. -/
def polarityBucket (polarity : String) : String :=
  if polarity = "+" then "light" else if polarity = "-" then "dark" else "neutral"

/-- `selectHandler(kVector)`. -/
def selectHandler (kv : Tag) : Handler :=
  if kv.escalation.escalate then
    { tier := apiTier, reason := kv.escalation.reason, template := none }
  else if kv.rank ≤ 6 then
    { tier := "template", reason := "low_complexity"
      template := some (kv.suit ++ "_" ++ polarityBucket kv.polarity) }
  else if kv.rank ≤ 10 then
    { tier := "local", reason := "moderate_complexity", template := none }
  else
    { tier := apiTier, reason := "high_complexity", template := none }

/-! ## Executor (`src/k-execute.js`)

The executor's effectful collaborators are passed in explicitly:
the template-corpus lookup result, the random index used to pick a canned
string, the local-transport outcome and the API-path outcome. -/

/-- `FALLBACK_TEMPLATES`, the builtin fallback table of `k-execute.js`. -/
def FALLBACK_TEMPLATES : List (String × List String) :=
  [("hearts_light", ["I hear you. What would feel supportive right now?"]),
   ("hearts_dark", ["That sounds difficult. I'm here to listen."]),
   ("hearts_neutral", ["I'm listening. What's on your mind?"]),
   ("spades_light", ["Let me break that down systematically."]),
   ("spades_dark", ["Let's debug this. What's the exact issue?"]),
   ("spades_neutral", ["Let me think through this."]),
   ("diamonds_light", ["Here's the information you need."]),
   ("diamonds_dark", ["Let me help you find what's missing."]),
   ("diamonds_neutral", ["The data breaks down as follows..."]),
   ("clubs_light", ["Let's build that. First step..."]),
   ("clubs_dark", ["Let's fix this. The action needed is..."]),
   ("clubs_neutral", ["Here's what to do next..."])]

/-- Property lookup in a string-keyed table (`TABLE[key]`): `none` models a
falsy `undefined` result. -/
def tableGet (table : List (String × List String)) (key : String) :
    Option (List String) :=
  (table.find? (fun p => p.1 = key)).map (fun p => p.2)

/-- The module-scope binding named `TEMPLATES` in `k-execute.js`.
`executeLocal`'s catch block reads `TEMPLATES[templateKey]`, but the module
declares only `FALLBACK_TEMPLATES` and imports no `TEMPLATES`, so the
identifier is unbound: `none` here makes evaluating it raise a
`ReferenceError`, as JavaScript does. -/
def kExecuteTEMPLATESBinding : Option (List (String × List String)) := none

/-- Errors that `execute`/`executeLocal` can surface to the caller. -/
inductive JsError where
  /-- A thrown transport/HTTP failure (`fetch` rejection or non-ok status). -/
  | transport (msg : String)
  /-- Evaluation of an unbound identifier. -/
  | referenceError (ident : String)
  /-- A property read on `undefined`. -/
  | typeError
deriving DecidableEq, Repr

/-- A successful execution result (the fields the claims depend on). -/
structure ExecResult where
  response : String
  tier : String
  tokens : Nat
  cost : Nat
  fallback : Bool
deriving DecidableEq, Repr

/-- Outcome of the local Ollama transport: `none` is any throw on the way
to parsed data (network failure or a non-ok HTTP status). -/
structure OllamaData where
  response : String
  eval_count : Option Nat
deriving DecidableEq, Repr

/-- `executeLocal(query, kVector, options)`, with the transport outcome
passed in.  On transport failure the catch block computes
`templateKey = suit + "_neutral"` and reads the unbound identifier
`TEMPLATES`; had that lookup produced an array, its first element would be
returned as a template-tier fallback, and a missing key would rethrow the
transport error. -/
def executeLocal (kv : Tag) (transport : Option OllamaData) :
    Except JsError ExecResult :=
  match transport with
  | some data =>
    .ok { response := data.response, tier := "local",
          tokens := data.eval_count.getD 0, cost := 0, fallback := false }
  | none =>
    let templateKey := kv.suit ++ "_neutral"
    match kExecuteTEMPLATESBinding with
    | none => .error (.referenceError "TEMPLATES")
    | some table =>
      match tableGet table templateKey with
      | some responses =>
        .ok { response := responses.headD "", tier := "template",
              tokens := 0, cost := 0, fallback := true }
      | none => .error (.transport "Ollama error")

/-- A routed query as handed to `execute`: the handler, the tag and the
query text. -/
structure RoutedQuery where
  handler : Handler
  kVector : Tag
  query : String
deriving Repr

/-- The corpus hit returned by `templateLookup` when it matches. -/
structure CorpusHit where
  response : String
  template : String
deriving DecidableEq, Repr

/-- `execute(routedQuery, options)`.  `corpus` is the result of the
external `templateLookup` collaborator, `randIdx` the random draw used to
pick among canned strings, and `localOutcome`/`apiOutcome` the results of
the (effectful) `executeLocal`/`executeAPI` paths. -/
def execute (rq : RoutedQuery) (forceLocal : Bool)
    (corpus : Option CorpusHit) (randIdx : Nat)
    (localOutcome apiOutcome : Except JsError ExecResult) :
    Except JsError ExecResult :=
  -- after the template block falls through, control reaches the
  -- local-tier test and then the final `executeAPI` call
  let afterTemplate :=
    if rq.handler.tier = "local" then localOutcome else apiOutcome
  if forceLocal then localOutcome
  else if rq.handler.tier = "template" then
    match corpus with
    | some hit =>
      .ok { response := hit.response, tier := "template",
            tokens := 0, cost := 0, fallback := false }
    | none =>
      match rq.handler.template with
      | some key =>
        match tableGet FALLBACK_TEMPLATES key with
        | some responses =>
          .ok { response := responses.getD (randIdx % responses.length) "",
                tier := "template", tokens := 0, cost := 0, fallback := false }
        | none => afterTemplate
      | none => afterTemplate
  else afterTemplate

/-! ## Claims C1 and C2 -/

/-- C1: for every query text, the escalation verdict of the produced tag is
decided by the first matching rule of the priority order — unknown suit ⇒
`uncertain_domain`; else rank ≥ 11 ⇒ `high_complexity`; else a synthesis
trigger ⇒ `requires_synthesis`; else not escalated, `routable` — and the
flag is true iff the suit is unknown, the rank is at least 11, or a
synthesis trigger matched. -/
theorem escalation_priority_order (q : String) :
    ((classifyQuery q).escalation.escalate = true ↔
      ((classifyQuery q).suit = "unknown" ∨ (classifyQuery q).rank ≥ 11 ∨
        synthesisTriggered q = true)) ∧
    ((classifyQuery q).suit = "unknown" →
      (classifyQuery q).escalation = ⟨true, "uncertain_domain"⟩) ∧
    ((classifyQuery q).suit ≠ "unknown" → (classifyQuery q).rank ≥ 11 →
      (classifyQuery q).escalation = ⟨true, "high_complexity"⟩) ∧
    ((classifyQuery q).suit ≠ "unknown" → (classifyQuery q).rank < 11 →
      synthesisTriggered q = true →
      (classifyQuery q).escalation = ⟨true, "requires_synthesis"⟩) ∧
    ((classifyQuery q).suit ≠ "unknown" → (classifyQuery q).rank < 11 →
      synthesisTriggered q = false →
      (classifyQuery q).escalation = ⟨false, "routable"⟩) := by
  have hsuit : (classifyQuery q).suit = classifyQuerySuit q := rfl
  have hrank : (classifyQuery q).rank = classifyQueryRank q := rfl
  have hesc : (classifyQuery q).escalation
      = shouldEscalate q (classifyQuerySuit q) (classifyQueryRank q) := rfl
  rw [hsuit, hrank, hesc]
  unfold shouldEscalate
  by_cases h1 : classifyQuerySuit q = "unknown" <;>
    by_cases h2 : classifyQueryRank q ≥ 11 <;>
      by_cases h3 : synthesisTriggered q = true <;>
        simp [h1, h2, h3]

/-- C1 witness: a concrete query with an unknown suit escalates with
reason `uncertain_domain`. -/
theorem escalation_priority_order_witness :
    (classifyQuery "zzz").escalation = ⟨true, "uncertain_domain"⟩ :=
  (escalation_priority_order "zzz").2.1 (by decide)

/-- C2: whenever a tag's escalation flag is set, the tier selector returns
the API tier (spelled `"opus"` in the source) with the escalation reason
and no template key; in particular the selector never returns
`tier = "template"` for an escalated tag. -/
theorem selectHandler_escalation (kv : Tag)
    (h : kv.escalation.escalate = true) :
    selectHandler kv = { tier := apiTier, reason := kv.escalation.reason,
                         template := none } ∧
    (selectHandler kv).tier ≠ "template" := by
  have h1 : selectHandler kv
      = { tier := apiTier, reason := kv.escalation.reason, template := none } := by
    simp [selectHandler, h]
  refine ⟨h1, ?_⟩
  rw [h1]
  show apiTier ≠ "template"
  decide

/-- C2 witness: a concrete escalated tag selects the API tier with the
escalation reason and no template key. -/
theorem selectHandler_escalation_witness :
    selectHandler (classifyQuery "zzz")
      = { tier := apiTier, reason := "uncertain_domain", template := none } := by
  have h := selectHandler_escalation (classifyQuery "zzz") (by decide)
  rw [h.1]
  decide

/-! ## Claims C7 and C3 -/

/-- C7: in a template-tier execution (not forced local) where the external
corpus lookup returns no match and the builtin fallback table has no entry
for the handler's template key, `execute` does not fail: it falls through
and performs the API-tier execution. -/
theorem execute_template_fallthrough (rq : RoutedQuery) (randIdx : Nat)
    (localOutcome apiOutcome : Except JsError ExecResult)
    (htier : rq.handler.tier = "template")
    (hmiss : ∀ key, rq.handler.template = some key →
      tableGet FALLBACK_TEMPLATES key = none) :
    execute rq false none randIdx localOutcome apiOutcome = apiOutcome := by
  unfold execute
  rw [htier]
  simp only [if_neg (by decide : ¬false = true), if_pos rfl]
  have hlocal : ("template" : String) = "local" ↔ False := by
    constructor
    · intro hc; exact absurd hc (by decide)
    · intro hc; exact hc.elim
  cases hkey : rq.handler.template with
  | none => simp [hlocal]
  | some key => simp [hmiss key hkey, hlocal]

/-- C7 witness: a concrete template-tier routed query whose template key is
absent from the builtin table executes on the API path. -/
theorem execute_template_fallthrough_witness :
    execute
      { handler := { tier := "template", reason := "low_complexity",
                     template := some "hearts_missing" },
        kVector := classifyQuery "I feel sad", query := "I feel sad" }
      false none 0 (.error (.transport "down"))
      (.ok { response := "api", tier := "api", tokens := 5, cost := 0,
             fallback := false })
    = .ok { response := "api", tier := "api", tokens := 5, cost := 0,
            fallback := false } :=
  execute_template_fallthrough _ 0 _ _ rfl (by intro key hk; cases hk; rfl)

/-- C3 (code bug): on a local-tier transport failure for a known suit, the
claimed fallback would come from the builtin table under the key
`suit_neutral` — and that key is present in `FALLBACK_TEMPLATES` — but the
catch block reads the unbound identifier `TEMPLATES`, so `executeLocal`
raises a `ReferenceError` on every transport failure and never produces a
fallback response. -/
theorem executeLocal_fallback_is_broken :
    executeLocal (classifyQuery "I feel so lonely and sad") none
        = .error (.referenceError "TEMPLATES") ∧
    (classifyQuery "I feel so lonely and sad").suit = "hearts" ∧
    tableGet FALLBACK_TEMPLATES "hearts_neutral"
        = some ["I'm listening. What's on your mind?"] := by
  refine ⟨rfl, by decide, by decide⟩

/-! ## Credential pool (`src/k-pool.js`)

The pool file is a JSON document `{keys, usage, lastRotation}`; persistence
is modelled by explicit state passing (`loadPool`/`savePool` round-trip the
same document).  `Date.now()` and ISO timestamps are passed in as
arguments. -/

/-- A credential entry of `pool.keys`. -/
structure KeyEntry where
  id : String
  provider : String
  key : String
  label : String
  addedAt : String
  usageToday : Nat
  lastUsed : Option String
  healthy : Bool
deriving DecidableEq, Repr

/-- A `pool.usage` record `{today, total}`. -/
structure UsageRec where
  today : Nat
  total : Nat
deriving DecidableEq, Repr

/-- The pool document. -/
structure Pool where
  keys : List KeyEntry
  usage : List (String × UsageRec)
  lastRotation : Option String
deriving DecidableEq, Repr

/-- `pool.usage[id]` (reading a missing property gives `undefined`). -/
def usageGet (u : List (String × UsageRec)) (id : String) : Option UsageRec :=
  (u.find? (fun p => p.1 = id)).map (fun p => p.2)

/-- `pool.usage[id] = rec`: JS assignment updates an existing key in place
and otherwise appends. -/
def usageSet (u : List (String × UsageRec)) (id : String) (rec : UsageRec) :
    List (String × UsageRec) :=
  match u with
  | [] => [(id, rec)]
  | (k, v) :: rest =>
    if k = id then (id, rec) :: rest else (k, v) :: usageSet rest id rec

/-- Per-provider configuration (`PROVIDERS`): `freeLimit = none` is the
`Infinity` quota of the local provider. -/
structure ProviderCfg where
  freeLimit : Option Nat
  endpoint : String
  tokenHeader : Option String
deriving DecidableEq, Repr

/-- The `PROVIDERS` table (`freeLimit`, `endpoint`, `tokenHeader`); an
unlisted provider name reads as `undefined`. -/
def PROVIDERS : String → Option ProviderCfg
  | "google" =>
    some ⟨some 1000000,
      "https://generativelanguage.googleapis.com/v1beta/models/gemini-pro:generateContent",
      some "x-goog-api-key"⟩
  | "anthropic" =>
    some ⟨some 0, "https://api.anthropic.com/v1/messages", some "x-api-key"⟩
  | "openrouter" =>
    some ⟨some 200000, "https://openrouter.ai/api/v1/chat/completions",
      some "Authorization"⟩
  | "ollama" =>
    some ⟨none, "http://localhost:11434/api/generate", none⟩
  | _ => none

/-- The id a new credential receives: `provider + "-" + Date.now()`. -/
def makeKeyId (provider : String) (now : Nat) : String :=
  provider ++ "-" ++ natDec now

/-- `addKey(provider, key, label)`, with `Date.now()` and the ISO clock
passed in; returns the entry and the saved pool. -/
def addKey (provider key : String) (label : Option String)
    (now : Nat) (nowIso : String) (pool : Pool) : KeyEntry × Pool :=
  let entry : KeyEntry :=
    { id := makeKeyId provider now
      provider := provider
      key := key
      label := label.getD (provider ++ "-key")
      addedAt := nowIso
      usageToday := 0
      lastUsed := none
      healthy := true }
  (entry,
   { keys := pool.keys ++ [entry]
     usage := usageSet pool.usage entry.id { today := 0, total := 0 }
     lastRotation := pool.lastRotation })

/-- `removeKey(keyId)`. -/
def removeKey (keyId : String) (pool : Pool) : Pool :=
  { keys := pool.keys.filter (fun k => k.id ≠ keyId)
    usage := pool.usage.filter (fun p => p.1 ≠ keyId)
    lastRotation := pool.lastRotation }

/-- The lazy daily reset at the top of `getNextKey`: if `lastRotation`
differs from today's UTC date, zero every entry's `usage.today` (creating a
missing record first) and stamp `lastRotation`.  The `keys` array is not
touched. -/
def dailyReset (pool : Pool) (today : String) : Pool :=
  if pool.lastRotation = some today then pool
  else
    { keys := pool.keys
      usage := pool.keys.foldl
        (fun u k =>
          usageSet u k.id { today := 0, total := ((usageGet u k.id).getD ⟨0, 0⟩).total })
        pool.usage
      lastRotation := some today }

/-- `pool.usage[id]?.today || 0`. -/
def usageTodayOf (pool : Pool) (id : String) : Nat :=
  ((usageGet pool.usage id).map (fun r => r.today)).getD 0

/-- Position-preserving enumeration of a list. -/
def enumFrom (n : Nat) : List α → List (Nat × α)
  | [] => []
  | x :: xs => (n, x) :: enumFrom (n + 1) xs

/-- The healthy (and provider-matching) candidates, with their positions in
`pool.keys`. -/
def candidatesOf (pool : Pool) (provider : Option String) :
    List (Nat × KeyEntry) :=
  (enumFrom 0 pool.keys).filter
    (fun p => p.2.healthy && (match provider with
      | none => true
      | some q => p.2.provider = q))

/-- First element attaining the minimum of `f`: the head of a stable
ascending sort by `f`, which is how `candidates.sort(...)[0]` selects the
least-used entry. -/
def pickMin (f : α → Nat) : List α → Option α
  | [] => none
  | x :: xs => some (xs.foldl (fun best y => if f y < f best then y else best) x)

/-- Marking the selected array slot unhealthy (`selected.healthy = false`). -/
def markAt (pool : Pool) (i : Nat) (e : KeyEntry) : Pool :=
  { pool with keys := pool.keys.set i { e with healthy := false } }

/-- The result of `getNextKey`: a pooled credential (spread together with
its provider's endpoint and token header) or the local-fallback sentinel
`{provider: 'ollama', key: null, local: true}`. -/
inductive KeyResult where
  | localFallback
  | entry (e : KeyEntry) (endpoint : String) (tokenHeader : Option String)
deriving DecidableEq, Repr

/-- `getNextKey(provider)` with an explicit recursion budget: `none` means
the budget ran out (the claims prove it never does for a sufficient
budget).  One step: lazy daily reset, filter to healthy candidates,
local-fallback sentinel on an empty filter, select the least-used
candidate, throw a `TypeError` if its provider is unlisted, mark it
unhealthy and recurse if its usage meets its quota, else return it. -/
def getNextKeyGas : Nat → Pool → Option String → String →
    Option (Except JsError (KeyResult × Pool))
  | 0, _, _, _ => none
  | gas + 1, pool0, provider, today =>
    match pickMin (fun p => usageTodayOf (dailyReset pool0 today) p.2.id)
        (candidatesOf (dailyReset pool0 today) provider) with
    | none => some (.ok (.localFallback, dailyReset pool0 today))
    | some ie =>
      match PROVIDERS ie.2.provider with
      | none => some (.error .typeError)
      | some cfg =>
        match cfg.freeLimit with
        | none =>
          some (.ok (.entry ie.2 cfg.endpoint cfg.tokenHeader, dailyReset pool0 today))
        | some limit =>
          if usageTodayOf (dailyReset pool0 today) ie.2.id ≥ limit then
            getNextKeyGas gas (markAt (dailyReset pool0 today) ie.1 ie.2) provider today
          else
            some (.ok (.entry ie.2 cfg.endpoint cfg.tokenHeader, dailyReset pool0 today))

/-- `recordUsage(keyId, tokens)`: bump the usage record and mirror it into
the first matching key entry. -/
def recordUsage (keyId : String) (tokens : Nat) (nowIso : String)
    (pool : Pool) : Pool :=
  let u0 := match usageGet pool.usage keyId with
    | none => usageSet pool.usage keyId { today := 0, total := 0 }
    | some _ => pool.usage
  let r := (usageGet u0 keyId).getD ⟨0, 0⟩
  let u1 := usageSet u0 keyId { today := r.today + tokens, total := r.total + tokens }
  let keys1 :=
    match (enumFrom 0 pool.keys).find? (fun p => p.2.id = keyId) with
    | some (i, k) =>
      pool.keys.set i { k with lastUsed := some nowIso, usageToday := r.today + tokens }
    | none => pool.keys
  { keys := keys1, usage := u1, lastRotation := pool.lastRotation }

/-- `markUnhealthy(keyId)`. -/
def markUnhealthy (keyId : String) (pool : Pool) : Pool :=
  match (enumFrom 0 pool.keys).find? (fun p => p.2.id = keyId) with
  | some (i, k) => { pool with keys := pool.keys.set i { k with healthy := false } }
  | none => pool

/-- `resetHealth()`: flip every entry back to healthy. -/
def resetHealth (pool : Pool) : Pool :=
  { pool with keys := pool.keys.map (fun k => { k with healthy := true }) }

/-- Number of healthy entries in the pool. -/
def countHealthy (pool : Pool) : Nat :=
  (pool.keys.filter (fun k => k.healthy)).length

/-! ## List helper lemmas for the pool proofs -/

theorem mem_enumFrom {l : List α} :
    ∀ {n i : Nat} {x : α}, (i, x) ∈ enumFrom n l → n ≤ i ∧ l.get? (i - n) = some x := by
  induction l with
  | nil => intro n i x h; exact absurd h (List.not_mem_nil _)
  | cons a t ih =>
    intro n i x h
    rcases List.mem_cons.mp h with h0 | h1
    · obtain ⟨h2, h3⟩ := Prod.ext_iff.mp h0
      dsimp at h2 h3
      subst h2; subst h3
      exact ⟨Nat.le_refl _, by simp⟩
    · obtain ⟨hle, hget⟩ := ih h1
      refine ⟨Nat.le_trans (Nat.le_succ n) hle, ?_⟩
      have h2 : i - n = (i - (n + 1)) + 1 := by omega
      rw [h2]
      simpa using hget

theorem mem_enumFrom_zero {l : List α} {i : Nat} {x : α}
    (h : (i, x) ∈ enumFrom 0 l) : l.get? i = some x := by
  have := (mem_enumFrom h).2
  simpa using this

theorem pickMin_mem {f : α → Nat} :
    ∀ {l : List α} {x : α}, pickMin f l = some x → x ∈ l := by
  have aux : ∀ (xs : List α) (a : α),
      (xs.foldl (fun best y => if f y < f best then y else best) a) ∈ a :: xs := by
    intro xs
    induction xs with
    | nil => intro a; simp
    | cons b t ih =>
      intro a
      simp only [List.foldl_cons]
      by_cases hb : f b < f a
      · rw [if_pos hb]
        exact List.mem_cons_of_mem a (ih b)
      · rw [if_neg hb]
        rcases List.mem_cons.mp (ih a) with h | h
        · exact List.mem_cons.mpr (Or.inl h)
        · exact List.mem_cons.mpr (Or.inr (List.mem_cons_of_mem b h))
  intro l x h
  cases l with
  | nil => exact absurd h (by simp [pickMin])
  | cons a t =>
    simp only [pickMin, Option.some.injEq] at h
    exact h ▸ aux t a

theorem get?_set_self : ∀ (l : List α) (i : Nat) (a b : α),
    l.get? i = some b → (l.set i a).get? i = some a := by
  intro l
  induction l with
  | nil => intro i a b h; simp at h
  | cons x t ih =>
    intro i a b h
    cases i with
    | zero => simp
    | succ j => simpa using ih j a b (by simpa using h)

theorem get?_set_other : ∀ (l : List α) (i j : Nat) (a : α), i ≠ j →
    (l.set i a).get? j = l.get? j := by
  intro l
  induction l with
  | nil => intro i j a _; simp
  | cons x t ih =>
    intro i j a hne
    cases i with
    | zero =>
      cases j with
      | zero => exact absurd rfl hne
      | succ k => simp
    | succ i2 =>
      cases j with
      | zero => simp
      | succ k => simpa using ih i2 k a (fun hc => hne (by rw [hc]))

theorem mem_set : ∀ (l : List α) (i : Nat) (a x : α), x ∈ l.set i a → x ∈ l ∨ x = a := by
  intro l
  induction l with
  | nil => intro i a x h; simp at h
  | cons y t ih =>
    intro i a x h
    cases i with
    | zero =>
      rcases List.mem_cons.mp h with h0 | h1
      · exact Or.inr h0
      · exact Or.inl (List.mem_cons_of_mem y h1)
    | succ j =>
      rcases List.mem_cons.mp h with h0 | h1
      · exact Or.inl (h0 ▸ List.mem_cons_self y t)
      · rcases ih j a x h1 with h2 | h2
        · exact Or.inl (List.mem_cons_of_mem y h2)
        · exact Or.inr h2

theorem map_set_eq {f : α → β} : ∀ (l : List α) (i : Nat) (a b : α),
    l.get? i = some b → f a = f b → (l.set i a).map f = l.map f := by
  intro l
  induction l with
  | nil => intro i a b h _; simp at h
  | cons x t ih =>
    intro i a b h hf
    cases i with
    | zero =>
      simp only [List.get?] at h
      cases h
      simp [hf]
    | succ j =>
      simp only [List.set, List.map_cons]
      rw [ih j a b (by simpa using h) hf]

theorem filter_healthy_set_lt {keys : List KeyEntry} :
    ∀ {i : Nat} {e : KeyEntry}, keys.get? i = some e → e.healthy = true →
    ((keys.set i { e with healthy := false }).filter (fun k => k.healthy)).length
      < (keys.filter (fun k => k.healthy)).length := by
  induction keys with
  | nil => intro i e h _; simp at h
  | cons x t ih =>
    intro i e h hh
    cases i with
    | zero =>
      simp only [List.get?] at h
      cases h
      have h1 : (x :: t).filter (fun k => k.healthy)
          = x :: t.filter (fun k => k.healthy) := by
        simp [List.filter_cons, hh]
      have h2 : (({ x with healthy := false } : KeyEntry) :: t).filter
            (fun k => k.healthy) = t.filter (fun k => k.healthy) := by
        simp [List.filter_cons,
          show ({ x with healthy := false } : KeyEntry).healthy = false from rfl]
      show ((({ x with healthy := false } : KeyEntry) :: t).filter
          (fun k => k.healthy)).length < ((x :: t).filter (fun k => k.healthy)).length
      rw [h1, h2]
      exact Nat.lt_succ_self _
    | succ j =>
      have h' : t.get? j = some e := by simpa using h
      have hlt := ih h' hh
      show ((x :: t.set j { e with healthy := false }).filter
          (fun k => k.healthy)).length < ((x :: t).filter (fun k => k.healthy)).length
      cases hx : x.healthy
      · simpa [List.filter_cons, hx] using hlt
      · simp only [List.filter_cons, hx, if_pos, List.length_cons]
        omega

/-! ## Pool invariant lemmas -/

theorem dailyReset_keys (pool : Pool) (today : String) :
    (dailyReset pool today).keys = pool.keys := by
  unfold dailyReset
  by_cases h : pool.lastRotation = some today
  · rw [if_pos h]
  · rw [if_neg h]

/-- A candidate is a position/entry pair of `pool.keys` whose entry is
healthy. -/
theorem candidatesOf_sound {pool : Pool} {provider : Option String}
    {i : Nat} {e : KeyEntry} (h : (i, e) ∈ candidatesOf pool provider) :
    pool.keys.get? i = some e ∧ e.healthy = true := by
  unfold candidatesOf at h
  have h1 := List.mem_filter.mp h
  refine ⟨mem_enumFrom_zero h1.1, ?_⟩
  have h2 := h1.2
  simp only [Bool.and_eq_true] at h2
  exact h2.1

/-- Whatever `getNextKey` does, an entry slot that is already unhealthy is
left untouched (in particular the lazy daily usage reset does not restore
health). -/
theorem getNextKeyGas_preserves_unhealthy :
    ∀ (gas : Nat) (pool : Pool) (provider : Option String) (today : String)
      (res : KeyResult) (pF : Pool),
      getNextKeyGas gas pool provider today = some (.ok (res, pF)) →
      ∀ (i : Nat) (e : KeyEntry), pool.keys.get? i = some e → e.healthy = false →
        pF.keys.get? i = some e := by
  intro gas
  induction gas with
  | zero => intro pool provider today res pF h; simp [getNextKeyGas] at h
  | succ g ih =>
    intro pool provider today res pF h i e hget hun
    have hget2 : (dailyReset pool today).keys.get? i = some e := by
      rw [dailyReset_keys]; exact hget
    unfold getNextKeyGas at h
    cases hsel : pickMin (fun p => usageTodayOf (dailyReset pool today) p.2.id)
        (candidatesOf (dailyReset pool today) provider) with
    | none =>
      rw [hsel] at h
      simp only [Option.some.injEq] at h
      cases h
      exact hget2
    | some ie =>
      rw [hsel] at h
      obtain ⟨j, sel⟩ := ie
      dsimp only at h
      obtain ⟨hjget, hjh⟩ := candidatesOf_sound (pickMin_mem hsel)
      cases hprov : PROVIDERS sel.provider with
      | none => rw [hprov] at h; simp at h
      | some cfg =>
        rw [hprov] at h
        dsimp only at h
        cases hlim : cfg.freeLimit with
        | none =>
          rw [hlim] at h
          dsimp only at h
          simp only [Option.some.injEq] at h
          cases h
          exact hget2
        | some limit =>
          rw [hlim] at h
          dsimp only at h
          by_cases hq : usageTodayOf (dailyReset pool today) sel.id ≥ limit
          · rw [if_pos hq] at h
            have hij : j ≠ i := by
              intro hji
              rw [hji, hget2] at hjget
              cases hjget
              rw [hun] at hjh
              exact Bool.false_ne_true hjh
            have hgetm : (markAt (dailyReset pool today) j sel).keys.get? i = some e := by
              unfold markAt
              show ((dailyReset pool today).keys.set j
                { sel with healthy := false }).get? i = some e
              rw [get?_set_other _ j i _ hij]
              exact hget2
            exact ih (markAt (dailyReset pool today) j sel) provider today res pF h
              i e hgetm hun
          · rw [if_neg hq] at h
            simp only [Option.some.injEq] at h
            cases h
            exact hget2

/-- Any credential entry `getNextKey` returns is healthy. -/
theorem getNextKeyGas_result_healthy :
    ∀ (gas : Nat) (pool : Pool) (provider : Option String) (today : String)
      (e : KeyEntry) (ep : String) (th : Option String) (pF : Pool),
      getNextKeyGas gas pool provider today = some (.ok (.entry e ep th, pF)) →
      e.healthy = true := by
  intro gas
  induction gas with
  | zero => intro pool provider today e ep th pF h; simp [getNextKeyGas] at h
  | succ g ih =>
    intro pool provider today e ep th pF h
    unfold getNextKeyGas at h
    cases hsel : pickMin (fun p => usageTodayOf (dailyReset pool today) p.2.id)
        (candidatesOf (dailyReset pool today) provider) with
    | none => rw [hsel] at h; simp at h
    | some ie =>
      rw [hsel] at h
      obtain ⟨j, sel⟩ := ie
      dsimp only at h
      obtain ⟨hjget, hjh⟩ := candidatesOf_sound (pickMin_mem hsel)
      cases hprov : PROVIDERS sel.provider with
      | none => rw [hprov] at h; simp at h
      | some cfg =>
        rw [hprov] at h
        dsimp only at h
        cases hlim : cfg.freeLimit with
        | none =>
          rw [hlim] at h
          dsimp only at h
          simp only [Option.some.injEq, Except.ok.injEq, Prod.mk.injEq,
            KeyResult.entry.injEq] at h
          obtain ⟨⟨⟨rfl, _⟩, _⟩, _⟩ := h
          exact hjh
        | some limit =>
          rw [hlim] at h
          dsimp only at h
          by_cases hq : usageTodayOf (dailyReset pool today) sel.id ≥ limit
          · rw [if_pos hq] at h
            exact ih _ provider today e ep th pF h
          · rw [if_neg hq] at h
            simp only [Option.some.injEq, Except.ok.injEq, Prod.mk.injEq,
              KeyResult.entry.injEq] at h
            obtain ⟨⟨⟨rfl, _⟩, _⟩, _⟩ := h
            exact hjh

/-- With every provider in the pool listed in `PROVIDERS`, a recursion
budget exceeding the number of healthy entries always produces a normal
result (no budget exhaustion and no thrown error). -/
theorem getNextKeyGas_total :
    ∀ (gas : Nat) (pool : Pool) (provider : Option String) (today : String),
      (∀ k ∈ pool.keys, (PROVIDERS k.provider).isSome) →
      countHealthy pool < gas →
      ∃ r, getNextKeyGas gas pool provider today = some (.ok r) := by
  intro gas
  induction gas with
  | zero => intro pool provider today _ hlt; omega
  | succ g ih =>
    intro pool provider today hprovs hlt
    unfold getNextKeyGas
    cases hsel : pickMin (fun p => usageTodayOf (dailyReset pool today) p.2.id)
        (candidatesOf (dailyReset pool today) provider) with
    | none => exact ⟨(.localFallback, dailyReset pool today), rfl⟩
    | some ie =>
      obtain ⟨j, sel⟩ := ie
      dsimp only
      obtain ⟨hjget, hjh⟩ := candidatesOf_sound (pickMin_mem hsel)
      have hjget0 : pool.keys.get? j = some sel := by
        rw [dailyReset_keys] at hjget
        exact hjget
      have hmem : sel ∈ pool.keys := List.get?_mem hjget0
      cases hprov : PROVIDERS sel.provider with
      | none =>
        have hcontra := hprovs sel hmem
        rw [hprov] at hcontra
        simp at hcontra
      | some cfg =>
        dsimp only
        cases hlim : cfg.freeLimit with
        | none =>
          exact ⟨(.entry sel cfg.endpoint cfg.tokenHeader, dailyReset pool today), rfl⟩
        | some limit =>
          dsimp only
          by_cases hq : usageTodayOf (dailyReset pool today) sel.id ≥ limit
          · rw [if_pos hq]
            refine ih (markAt (dailyReset pool today) j sel) provider today ?_ ?_
            · intro k hk
              unfold markAt at hk
              rcases mem_set _ _ _ _ hk with hk1 | hk1
              · rw [dailyReset_keys] at hk1
                exact hprovs k hk1
              · rw [hk1]
                show (PROVIDERS sel.provider).isSome
                rw [hprov]; rfl
            · have hdec : countHealthy (markAt (dailyReset pool today) j sel)
                  < countHealthy pool := by
                unfold countHealthy markAt
                show (((dailyReset pool today).keys.set j
                    { sel with healthy := false }).filter (fun k => k.healthy)).length
                  < (pool.keys.filter (fun k => k.healthy)).length
                rw [dailyReset_keys]
                exact filter_healthy_set_lt hjget0 hjh
              omega
          · rw [if_neg hq]
            exact ⟨(.entry sel cfg.endpoint cfg.tokenHeader, dailyReset pool today), rfl⟩

/-! ## Claims C6 and C10 -/

/-- C6: a quota-exhausted credential is permanently excluded.  The
conjunction states: (1) any credential entry returned by `nextCredential`
is healthy, so an unhealthy entry is never a result; (2) an entry slot
already unhealthy before a `nextCredential` call is byte-for-byte unchanged
afterwards — the lazy daily usage reset in particular does not restore it;
(3) the lazy daily reset never touches the `keys` array at all; (4) when
the call selects an entry whose tracked usage meets or exceeds its
provider's fixed quota, the final pool has that slot marked unhealthy;
(5) `recordUsage` never changes any health flag; (6) `resetHealth` makes
every entry healthy again. -/
theorem credential_quota_exclusion :
    (∀ (gas : Nat) (pool : Pool) (prov : Option String) (today : String)
       (e : KeyEntry) (ep : String) (th : Option String) (pF : Pool),
       getNextKeyGas gas pool prov today = some (.ok (.entry e ep th, pF)) →
       e.healthy = true) ∧
    (∀ (gas : Nat) (pool : Pool) (prov : Option String) (today : String)
       (res : KeyResult) (pF : Pool),
       getNextKeyGas gas pool prov today = some (.ok (res, pF)) →
       ∀ (i : Nat) (e : KeyEntry),
       pool.keys.get? i = some e → e.healthy = false →
       pF.keys.get? i = some e) ∧
    (∀ (pool : Pool) (today : String), (dailyReset pool today).keys = pool.keys) ∧
    (∀ (gas : Nat) (pool : Pool) (prov : Option String) (today : String)
       (j : Nat) (sel : KeyEntry) (cfg : ProviderCfg) (limit : Nat)
       (res : KeyResult) (pF : Pool),
       pickMin (fun p => usageTodayOf (dailyReset pool today) p.2.id)
         (candidatesOf (dailyReset pool today) prov) = some (j, sel) →
       PROVIDERS sel.provider = some cfg → cfg.freeLimit = some limit →
       usageTodayOf (dailyReset pool today) sel.id ≥ limit →
       getNextKeyGas (gas + 1) pool prov today = some (.ok (res, pF)) →
       pF.keys.get? j = some { sel with healthy := false }) ∧
    (∀ (keyId : String) (tokens : Nat) (iso : String) (pool : Pool),
       (recordUsage keyId tokens iso pool).keys.map (fun k => k.healthy)
         = pool.keys.map (fun k => k.healthy)) ∧
    (∀ (pool : Pool), ∀ e ∈ (resetHealth pool).keys, e.healthy = true) := by
  refine ⟨getNextKeyGas_result_healthy, getNextKeyGas_preserves_unhealthy,
    dailyReset_keys, ?_, ?_, ?_⟩
  · intro gas pool prov today j sel cfg limit res pF hsel hprov hlim hq hrun
    unfold getNextKeyGas at hrun
    rw [hsel] at hrun
    dsimp only at hrun
    rw [hprov] at hrun
    dsimp only at hrun
    rw [hlim] at hrun
    dsimp only at hrun
    rw [if_pos hq] at hrun
    obtain ⟨hjget, _⟩ := candidatesOf_sound (pickMin_mem hsel)
    have hmark : (markAt (dailyReset pool today) j sel).keys.get? j
        = some { sel with healthy := false } := by
      unfold markAt
      exact get?_set_self _ j _ sel hjget
    exact getNextKeyGas_preserves_unhealthy gas _ prov today res pF hrun j
      { sel with healthy := false } hmark rfl
  · intro keyId tokens iso pool
    unfold recordUsage
    cases hfind : (enumFrom 0 pool.keys).find? (fun p => p.2.id = keyId) with
    | none => rfl
    | some ik =>
      obtain ⟨i, k⟩ := ik
      dsimp only
      have hget : pool.keys.get? i = some k :=
        mem_enumFrom_zero (List.mem_of_find?_eq_some hfind)
      exact map_set_eq pool.keys i _ k hget rfl
  · intro pool e he
    unfold resetHealth at he
    obtain ⟨k, _, hk⟩ := List.mem_map.mp he
    rw [← hk]

/-- C6 witness: a single anthropic credential (daily quota 0) is selected,
found quota-exhausted, marked unhealthy in the saved pool, and the call
falls back to the local sentinel. -/
theorem credential_quota_exclusion_witness :
    (Pool.mk
      [{ id := "anthropic-1", provider := "anthropic", key := "s", label := "l",
         addedAt := "t", usageToday := 0, lastUsed := none, healthy := false }]
      [("anthropic-1", ⟨0, 0⟩)] (some "d")).keys.get? 0
      = some { id := "anthropic-1", provider := "anthropic", key := "s",
               label := "l", addedAt := "t", usageToday := 0, lastUsed := none,
               healthy := false } := by
  have h := credential_quota_exclusion.2.2.2.1 1
    (Pool.mk
      [{ id := "anthropic-1", provider := "anthropic", key := "s", label := "l",
         addedAt := "t", usageToday := 0, lastUsed := none, healthy := true }]
      [("anthropic-1", ⟨0, 0⟩)] (some "d"))
    none "d" 0
    { id := "anthropic-1", provider := "anthropic", key := "s", label := "l",
      addedAt := "t", usageToday := 0, lastUsed := none, healthy := true }
    ⟨some 0, "https://api.anthropic.com/v1/messages", some "x-api-key"⟩ 0
    .localFallback
    (Pool.mk
      [{ id := "anthropic-1", provider := "anthropic", key := "s", label := "l",
         addedAt := "t", usageToday := 0, lastUsed := none, healthy := false }]
      [("anthropic-1", ⟨0, 0⟩)] (some "d"))
    (by decide) (by decide) (by decide) (by decide) rfl
  exact h

/-- C10 counterexample: `getNextKey` does not always return a credential or
the local-fallback sentinel — on a pool whose only (healthy) entry names a
provider absent from `PROVIDERS`, reading `providerConfig.freeLimit` throws
a `TypeError`, even with a recursion budget of pool size + 1. -/
theorem getNextKey_unknown_provider_throws :
    getNextKeyGas 2
      (Pool.mk
        [{ id := "x-1", provider := "x", key := "s", label := "l",
           addedAt := "t", usageToday := 0, lastUsed := none, healthy := true }]
        [("x-1", ⟨0, 0⟩)] (some "d"))
      none "d" = some (.error .typeError) := rfl

/-- C10 (amended): on every pool whose entries all name configured
providers, `nextCredential` terminates within a recursion budget of one
more than the number of healthy entries — each recursive call strictly
decreases that number — and hence within pool size + 1, producing a normal
result (a credential entry or the local-fallback sentinel, never an
error). -/
theorem getNextKey_terminates (pool : Pool) (prov : Option String)
    (today : String)
    (hprovs : ∀ k ∈ pool.keys, (PROVIDERS k.provider).isSome) :
    (∃ r, getNextKeyGas (countHealthy pool + 1) pool prov today
        = some (.ok r)) ∧
    (∃ r, getNextKeyGas (pool.keys.length + 1) pool prov today
        = some (.ok r)) := by
  constructor
  · exact getNextKeyGas_total (countHealthy pool + 1) pool prov today hprovs
      (Nat.lt_succ_self _)
  · refine getNextKeyGas_total (pool.keys.length + 1) pool prov today hprovs ?_
    have hle : countHealthy pool ≤ pool.keys.length := List.length_filter_le _ _
    omega

/-- C10 witness: with one configured (google) credential the call with
budget pool size + 1 produces a normal result. -/
theorem getNextKey_terminates_witness :
    (getNextKeyGas 2
      (Pool.mk
        [{ id := "google-111", provider := "google", key := "s", label := "l",
           addedAt := "t", usageToday := 0, lastUsed := none, healthy := true }]
        [("google-111", ⟨0, 0⟩)] (some "d"))
      none "d").isSome = true := by
  obtain ⟨r, hr⟩ := (getNextKey_terminates
    (Pool.mk
      [{ id := "google-111", provider := "google", key := "s", label := "l",
         addedAt := "t", usageToday := 0, lastUsed := none, healthy := true }]
      [("google-111", ⟨0, 0⟩)] (some "d"))
    none "d" (by decide)).2
  rw [show (2 : Nat) = (Pool.mk
      [{ id := "google-111", provider := "google", key := "s", label := "l",
         addedAt := "t", usageToday := 0, lastUsed := none, healthy := true }]
      [("google-111", ⟨0, 0⟩)] (some "d")).keys.length + 1 from rfl, hr]
  rfl

/-! ## Decimal rendering lemmas (for credential-id uniqueness, C9) -/

theorem natDecAux_eq_digits :
    ∀ (fuel n : Nat), n ≤ fuel →
      natDecAux fuel n = ((Nat.digits 10 n).reverse).map digitChar := by
  intro fuel
  induction fuel with
  | zero =>
    intro n h
    have hn : n = 0 := Nat.le_zero.mp h
    subst hn
    simp [natDecAux]
  | succ f ih =>
    intro n h
    by_cases hn : n = 0
    · subst hn
      simp [natDecAux]
    · have hpos : 0 < n := Nat.pos_of_ne_zero hn
      have hdiv : n / 10 < n := Nat.div_lt_self hpos (by norm_num)
      have hle : n / 10 ≤ f := by omega
      show (if n = 0 then [] else natDecAux f (n / 10) ++ [digitChar (n % 10)])
          = ((Nat.digits 10 n).reverse).map digitChar
      rw [if_neg hn, ih (n / 10) hle,
        Nat.digits_def' (by norm_num : (1 : Nat) < 10) hpos]
      simp

theorem digitChar_toNat {d : Nat} (h : d < 10) : (digitChar d).toNat = 48 + d := by
  interval_cases d <;> decide

theorem digitChar_inj {d e : Nat} (hd : d < 10) (he : e < 10)
    (h : digitChar d = digitChar e) : d = e := by
  have h1 := congrArg Char.toNat h
  rw [digitChar_toNat hd, digitChar_toNat he] at h1
  omega

theorem digitChar_ne_dash {d : Nat} (h : d < 10) : digitChar d ≠ '-' := by
  interval_cases d <;> decide

theorem map_digitChar_inj :
    ∀ (l1 l2 : List Nat), (∀ d ∈ l1, d < 10) → (∀ d ∈ l2, d < 10) →
      l1.map digitChar = l2.map digitChar → l1 = l2 := by
  intro l1
  induction l1 with
  | nil =>
    intro l2 _ _ h
    cases l2 with
    | nil => rfl
    | cons e t2 => simp at h
  | cons d t1 ih =>
    intro l2 h1 h2 h
    cases l2 with
    | nil => simp at h
    | cons e t2 =>
      simp only [List.map_cons, List.cons.injEq] at h
      have hde := digitChar_inj (h1 d (List.mem_cons_self d t1))
        (h2 e (List.mem_cons_self e t2)) h.1
      rw [hde, ih t2 (fun x hx => h1 x (List.mem_cons_of_mem d hx))
        (fun x hx => h2 x (List.mem_cons_of_mem e hx)) h.2]

theorem natDec_data_digits {n : Nat} (hn : n ≠ 0) :
    (natDec n).data = ((Nat.digits 10 n).reverse).map digitChar := by
  rw [natDec, if_neg hn]
  show natDecAux n n = ((Nat.digits 10 n).reverse).map digitChar
  exact natDecAux_eq_digits n n (Nat.le_refl n)

theorem natDec_inj {m n : Nat} (h : natDec m = natDec n) : m = n := by
  have hdata := congrArg String.data h
  by_cases hm : m = 0 <;> by_cases hn : n = 0
  · rw [hm, hn]
  · exfalso
    rw [hm] at hdata
    rw [natDec_data_digits hn] at hdata
    have h0 : (natDec 0).data = ['0'] := by decide
    rw [h0] at hdata
    have hd0 : digitChar 0 = '0' := by decide
    rw [show (['0'] : List Char) = [0].map digitChar by simp [hd0]] at hdata
    have hdig : ([0] : List Nat) = (Nat.digits 10 n).reverse :=
      map_digitChar_inj [0] ((Nat.digits 10 n).reverse) (by simp)
        (fun d hd => Nat.digits_lt_base (by norm_num) (List.mem_reverse.mp hd))
        hdata
    have hrev : Nat.digits 10 n = [0] := by
      have := congrArg List.reverse hdig
      simpa using this.symm
    have hofd := Nat.ofDigits_digits 10 n
    rw [hrev] at hofd
    simp [Nat.ofDigits] at hofd
    exact hn hofd.symm
  · exfalso
    rw [hn] at hdata
    rw [natDec_data_digits hm] at hdata
    have h0 : (natDec 0).data = ['0'] := by decide
    rw [h0] at hdata
    have hd0 : digitChar 0 = '0' := by decide
    rw [show (['0'] : List Char) = [0].map digitChar by simp [hd0]] at hdata
    have hdig : (Nat.digits 10 m).reverse = ([0] : List Nat) :=
      map_digitChar_inj ((Nat.digits 10 m).reverse) [0]
        (fun d hd => Nat.digits_lt_base (by norm_num) (List.mem_reverse.mp hd))
        (by simp) hdata
    have hrev : Nat.digits 10 m = [0] := by
      have := congrArg List.reverse hdig
      simpa using this
    have hofd := Nat.ofDigits_digits 10 m
    rw [hrev] at hofd
    simp [Nat.ofDigits] at hofd
    exact hm hofd.symm
  · rw [natDec_data_digits hm, natDec_data_digits hn] at hdata
    have hdig := map_digitChar_inj _ _
      (fun d hd => Nat.digits_lt_base (by norm_num) (List.mem_reverse.mp hd))
      (fun d hd => Nat.digits_lt_base (by norm_num) (List.mem_reverse.mp hd))
      hdata
    have hrev := congrArg List.reverse hdig
    simp only [List.reverse_reverse] at hrev
    have hm1 := Nat.ofDigits_digits 10 m
    have hn1 := Nat.ofDigits_digits 10 n
    rw [hrev] at hm1
    rw [hn1] at hm1
    exact hm1.symm

theorem natDec_no_dash (t : Nat) : ∀ c ∈ (natDec t).data, c ≠ '-' := by
  intro c hc
  by_cases ht : t = 0
  · subst ht
    have h0 : (natDec 0).data = ['0'] := by decide
    rw [h0] at hc
    simp at hc
    rw [hc]
    decide
  · rw [natDec_data_digits ht] at hc
    obtain ⟨d, hd, hdc⟩ := List.mem_map.mp hc
    rw [← hdc]
    exact digitChar_ne_dash (Nat.digits_lt_base (by norm_num) (List.mem_reverse.mp hd))

/-- Splitting at a separator: if the parts after the separator contain no
dash, the decomposition `prefix ++ dash ++ suffix` is unique. -/
theorem dashfree_suffix_split :
    ∀ (r1 : List Char) (r2 a1 a2 : List Char),
      (∀ c ∈ r1, c ≠ '-') → (∀ c ∈ r2, c ≠ '-') →
      r1 ++ '-' :: a1 = r2 ++ '-' :: a2 → r1 = r2 ∧ a1 = a2 := by
  intro r1
  induction r1 with
  | nil =>
    intro r2 a1 a2 _ h2 h
    cases r2 with
    | nil =>
      simp only [List.nil_append, List.cons.injEq] at h
      exact ⟨rfl, h.2⟩
    | cons c r2t =>
      simp only [List.nil_append, List.cons_append, List.cons.injEq] at h
      exact absurd h.1.symm (h2 c (List.mem_cons_self c r2t))
  | cons c r1t ih =>
    intro r2 a1 a2 h1 h2 h
    cases r2 with
    | nil =>
      simp only [List.cons_append, List.nil_append, List.cons.injEq] at h
      exact absurd h.1 (h1 c (List.mem_cons_self c r1t))
    | cons c2 r2t =>
      simp only [List.cons_append, List.cons.injEq] at h
      obtain ⟨ht, ha⟩ := ih r2t a1 a2
        (fun x hx => h1 x (List.mem_cons_of_mem c hx))
        (fun x hx => h2 x (List.mem_cons_of_mem c2 hx)) h.2
      exact ⟨by rw [h.1, ht], ha⟩

theorem append_dash_split (l1 l2 m1 m2 : List Char)
    (h1 : ∀ c ∈ m1, c ≠ '-') (h2 : ∀ c ∈ m2, c ≠ '-')
    (h : l1 ++ '-' :: m1 = l2 ++ '-' :: m2) : l1 = l2 ∧ m1 = m2 := by
  have hrev : m1.reverse ++ '-' :: l1.reverse
      = m2.reverse ++ '-' :: l2.reverse := by
    have hr := congrArg List.reverse h
    simpa [List.reverse_append, List.append_assoc] using hr
  obtain ⟨hm, hl⟩ := dashfree_suffix_split m1.reverse m2.reverse
    l1.reverse l2.reverse
    (fun c hc => h1 c (List.mem_reverse.mp hc))
    (fun c hc => h2 c (List.mem_reverse.mp hc)) hrev
  constructor
  · have := congrArg List.reverse hl
    simpa using this
  · have := congrArg List.reverse hm
    simpa using this

theorem string_data_inj {s t : String} (h : s.data = t.data) : s = t := by
  cases s; cases t; exact congrArg String.mk h

/-- The credential id `provider + "-" + Date.now()` determines the
provider and the millisecond timestamp. -/
theorem makeKeyId_inj {p1 p2 : String} {t1 t2 : Nat}
    (h : makeKeyId p1 t1 = makeKeyId p2 t2) : p1 = p2 ∧ t1 = t2 := by
  have hdata := congrArg String.data h
  have hshape : ∀ (p : String) (t : Nat),
      (makeKeyId p t).data = p.data ++ '-' :: (natDec t).data := by
    intro p t
    show ((p ++ "-") ++ natDec t).data = p.data ++ '-' :: (natDec t).data
    rw [String.data_append, String.data_append]
    simp
  rw [hshape p1 t1, hshape p2 t2] at hdata
  obtain ⟨hp, ht⟩ := append_dash_split p1.data p2.data
    (natDec t1).data (natDec t2).data
    (natDec_no_dash t1) (natDec_no_dash t2) hdata
  exact ⟨string_data_inj hp, natDec_inj (string_data_inj ht)⟩

/-! ## Claim C9 -/

/-- C9 counterexample: two `addKey` calls for the same provider in the same
`Date.now()` millisecond produce the same id, so pool ids are not pairwise
unique. -/
theorem addKey_same_millisecond_duplicate_id :
    ((addKey "google" "k2" none 111 "t"
        (addKey "google" "k1" none 111 "t" (Pool.mk [] [] none)).2).2.keys.map
      (fun k => k.id)) = ["google-111", "google-111"] ∧
    ¬ ((addKey "google" "k2" none 111 "t"
        (addKey "google" "k1" none 111 "t" (Pool.mk [] [] none)).2).2.keys.map
      (fun k => k.id)).Nodup := by
  constructor
  · rfl
  · decide

/-- One `addKey` call of the amended C9 statement. -/
structure AddCall where
  provider : String
  key : String
  label : Option String
  now : Nat
  nowIso : String

/-- Folding a sequence of `addKey` calls over the empty pool. -/
def buildPoolFromAdds (calls : List AddCall) : Pool :=
  calls.foldl
    (fun p c => (addKey c.provider c.key c.label c.now c.nowIso p).2)
    (Pool.mk [] [] none)

theorem buildPool_ids :
    ∀ (calls : List AddCall) (p : Pool),
      ((calls.foldl
          (fun p c => (addKey c.provider c.key c.label c.now c.nowIso p).2)
          p).keys.map (fun k => k.id))
        = p.keys.map (fun k => k.id)
          ++ calls.map (fun c => makeKeyId c.provider c.now) := by
  intro calls
  induction calls with
  | nil => intro p; simp
  | cons c t ih =>
    intro p
    simp only [List.foldl_cons, List.map_cons]
    rw [ih]
    show ((addKey c.provider c.key c.label c.now c.nowIso p).2.keys.map
        (fun k => k.id)) ++ t.map (fun c => makeKeyId c.provider c.now)
      = p.keys.map (fun k => k.id)
        ++ makeKeyId c.provider c.now :: t.map (fun c => makeKeyId c.provider c.now)
    have hstep : (addKey c.provider c.key c.label c.now c.nowIso p).2.keys.map
        (fun k => k.id)
        = p.keys.map (fun k => k.id) ++ [makeKeyId c.provider c.now] := by
      simp [addKey]
    rw [hstep]
    simp

/-- C9 (amended): an id determines the `(provider, Date.now())` pair, so
two `addKey` calls produce equal ids exactly when they share both provider
and millisecond; consequently any sequence of `addKey` calls with pairwise
distinct `(provider, millisecond)` pairs yields a pool whose credential
ids are pairwise unique. -/
theorem addKey_ids_unique (calls : List AddCall)
    (hdist : (calls.map (fun c => (c.provider, c.now))).Nodup) :
    ((buildPoolFromAdds calls).keys.map (fun k => k.id)).Nodup ∧
    (∀ (p1 p2 : String) (t1 t2 : Nat),
      makeKeyId p1 t1 = makeKeyId p2 t2 ↔ p1 = p2 ∧ t1 = t2) := by
  constructor
  · unfold buildPoolFromAdds
    rw [buildPool_ids calls (Pool.mk [] [] none)]
    simp only [List.map_nil, List.nil_append]
    have hcomp : calls.map (fun c => makeKeyId c.provider c.now)
        = (calls.map (fun c => (c.provider, c.now))).map
            (fun q => makeKeyId q.1 q.2) := by
      rw [List.map_map]
      rfl
    rw [hcomp]
    refine List.Nodup.map ?_ hdist
    intro a b hab
    obtain ⟨hp, ht⟩ := makeKeyId_inj hab
    exact Prod.ext hp ht
  · intro p1 p2 t1 t2
    constructor
    · exact makeKeyId_inj
    · rintro ⟨rfl, rfl⟩
      rfl

/-- C9 witness: two same-provider calls in distinct milliseconds give a
pool with pairwise-distinct ids. -/
theorem addKey_ids_unique_witness :
    ((buildPoolFromAdds
      [⟨"google", "k1", none, 111, "t"⟩, ⟨"google", "k2", none, 222, "t"⟩]).keys.map
        (fun k => k.id)).Nodup :=
  (addKey_ids_unique
    [⟨"google", "k1", none, 111, "t"⟩, ⟨"google", "k2", none, 222, "t"⟩]
    (by decide)).1

/-! ## Audit chain (`src/k-chain.js`)

Chain blocks are JavaScript objects built partly from a spread of the
caller's `metadata` dictionary, so they are embedded as insertion-ordered
association lists of JS primitive values.  `hashBlock` in the source is
`sha256(JSON.stringify({...block, prevHash})).slice(0, 16)`; the
serialize-and-digest composition is abstracted by a hash parameter
`H : Obj → String`, while the one property of `JSON.stringify` the chain
logic depends on — properties whose value is `undefined` are omitted — is
modelled explicitly by `dropUndefVals`. -/

/-- A JS primitive value as stored in chain blocks. -/
inductive JVal where
  | undefVal
  | null
  | bool (b : Bool)
  | num (n : Int)
  | str (s : String)
deriving DecidableEq, Repr

/-- A JS object: insertion-ordered fields. -/
abbrev Obj := List (String × JVal)

/-- Property read `o[k]`: a missing property reads as `undefined`. -/
def jget (o : Obj) (k : String) : JVal :=
  match o.find? (fun p => p.1 = k) with
  | some p => p.2
  | none => .undefVal

/-- Property write `o[k] = v`: update the existing key in place, else
append — JS object assignment. -/
def jset : Obj → String → JVal → Obj
  | [], k, v => [(k, v)]
  | (k0, v0) :: rest, k, v =>
    if k0 = k then (k, v) :: rest else (k0, v0) :: jset rest k v

/-- Spreading `updates` into `base` (`{...base, ...updates}`). -/
def objAssign (base updates : Obj) : Obj :=
  updates.foldl (fun acc p => jset acc p.1 p.2) base

/-- `JSON.stringify` omits properties whose value is `undefined`. -/
def dropUndefVals (o : Obj) : Obj := o.filter (fun p => p.2 ≠ JVal.undefVal)

/-- Template-literal rendering of a JS value (used for `Block ${id}`). -/
def jsDisplay : JVal → String
  | .undefVal => "undefined"
  | .null => "null"
  | .bool b => if b then "true" else "false"
  | .num n => if n < 0 then "-" ++ natDec n.natAbs else natDec n.toNat
  | .str s => s

/-- Truthiness of a JS value (for `x || y`). -/
def jsTruthy : JVal → Bool
  | .undefVal => false
  | .null => false
  | .bool b => b
  | .num n => n ≠ 0
  | .str s => s ≠ ""

/-- `a || b`. -/
def jsOr (a b : JVal) : JVal := if jsTruthy a then a else b

/-- `hashBlock(block, prevHash)`:
`createHash('sha256').update(JSON.stringify({...block, prevHash})).digest('hex').slice(0, 16)`.
`H` abstracts the serializer and truncated digest; `dropUndefVals` keeps the
`undefined`-omission of the serializer explicit. -/
def hashBlock (H : Obj → String) (block : Obj) (prevHash : JVal) : String :=
  H (dropUndefVals (jset block "prevHash" prevHash))

/-- The zero sentinel used as the first block's `prevHash`. -/
def zeroHash : String := "0000000000000000"

/-- The chain document `{blocks, metadata}`. -/
structure Chain where
  blocks : List Obj
  metadata : Obj
deriving DecidableEq, Repr

/-- The default chain `loadChain` creates when no file exists. -/
def emptyChain : Chain :=
  ⟨[], [("created", .str ""), ("version", .str "0.4.0")]⟩

/-- The `prevHash` `logExchange` links the next block to: the last stored
block's `hash`, or the zero sentinel on an empty chain. -/
def chainPrevHash (chain : Chain) : JVal :=
  match chain.blocks.getLast? with
  | some b => jget b "hash"
  | none => .str zeroHash

/-- The explicitly-listed fields of the block literal in `logExchange`, in
source order.  `response` is passed as a string (the string branch of the
source's `typeof response === 'string'` test) and the tag's `shorthand`,
being nonempty, is what `kVector?.shorthand || kVector` evaluates to. -/
def logBase (chain : Chain) (ts query response : String) (kv : Tag)
    (metadata : Obj) : Obj :=
  [("id", .num (chain.blocks.length + 1)),
   ("timestamp", .str ts),
   ("query", .str query),
   ("response", .str response),
   ("kVector", .str kv.shorthand),
   ("suit", .str kv.suit),
   ("polarity", .str kv.polarity),
   ("rank", .num kv.rank),
   ("tier", jsOr (jget metadata "tier") (.str "unknown")),
   ("tokens", jsOr (jget metadata "tokens") (.num 0))]

/-- The block content after spreading `...metadata` over the literal. -/
def logContent (chain : Chain) (ts query response : String) (kv : Tag)
    (metadata : Obj) : Obj :=
  objAssign (logBase chain ts query response kv metadata) metadata

/-- The stored block: content, then `block.hash = hashBlock(block, prevHash)`
and `block.prevHash = prevHash` assigned in that order. -/
def logBlock (H : Obj → String) (chain : Chain) (ts query response : String)
    (kv : Tag) (metadata : Obj) : Obj :=
  jset
    (jset (logContent chain ts query response kv metadata) "hash"
      (.str (hashBlock H (logContent chain ts query response kv metadata)
        (chainPrevHash chain))))
    "prevHash" (chainPrevHash chain)

/-- `logExchange(query, response, kVector, metadata)`, with the ISO clock
passed in; returns the new block and the saved chain. -/
def logExchange (H : Obj → String) (chain : Chain) (ts query response : String)
    (kv : Tag) (metadata : Obj) : Obj × Chain :=
  (logBlock H chain ts query response kv metadata,
   ⟨chain.blocks ++ [logBlock H chain ts query response kv metadata],
    jset (jset chain.metadata "lastUpdated" (.str ts))
      "blockCount" (.num (chain.blocks.length + 1))⟩)

/-- The hash `verifyChain` recomputes for a stored block:
`hashBlock({...block, hash: undefined, prevHash: undefined}, prevHash)`. -/
def recomputedHash (H : Obj → String) (b : Obj) (prev : JVal) : String :=
  hashBlock H (jset (jset b "hash" .undefVal) "prevHash" .undefVal) prev

/-- `Block ${block.id}` error prefix. -/
def blockErrPrefix (b : Obj) : String := "Block " ++ jsDisplay (jget b "id")

/-- The integrity errors one loop iteration of `verifyChain` pushes for a
block, given the running `prevHash`: the link check first, then the hash
check. -/
def blockStepErrs (H : Obj → String) (b : Obj) (prev : JVal) : List String :=
  (if jget b "prevHash" ≠ prev then [blockErrPrefix b ++ ": prevHash mismatch"]
   else [])
  ++ (if jget b "hash" ≠ .str (recomputedHash H b prev)
      then [blockErrPrefix b ++ ": hash mismatch"] else [])

/-- The verification walk: blocks in order, threading the stored `hash` as
the next running `prevHash`; the pushed errors appear in walk order. -/
def verifyGo (H : Obj → String) : List Obj → JVal → List String
  | [], _ => []
  | b :: rest, prev => blockStepErrs H b prev ++ verifyGo H rest (jget b "hash")

/-- `verifyChain`'s result `{valid, errors}`. -/
structure VerifyResult where
  valid : Bool
  errors : List String
deriving DecidableEq, Repr

/-- `verifyChain()`: an empty chain is trivially valid; otherwise walk the
blocks from the zero sentinel and report `valid` iff no error. -/
def verifyChain (H : Obj → String) (chain : Chain) : VerifyResult :=
  if chain.blocks.isEmpty then ⟨true, []⟩
  else
    ⟨(verifyGo H chain.blocks (.str zeroHash)).isEmpty,
     verifyGo H chain.blocks (.str zeroHash)⟩

/-- The running `prevHash` after walking `bs` starting from `prev`. -/
def walkEnd : JVal → List Obj → JVal
  | prev, [] => prev
  | _, b :: rest => walkEnd (jget b "hash") rest

/-- The hash-link predicate of the spec: each block's `prevHash` is the
previous block's stored `hash`, the first one being `prev`. -/
def linksOk : JVal → List Obj → Prop
  | _, [] => True
  | prev, b :: rest => jget b "prevHash" = prev ∧ linksOk (jget b "hash") rest

/-- One `logExchange` call of the chain-building statements. -/
structure LogInput where
  ts : String
  query : String
  response : String
  kv : Tag
  meta : Obj

/-- Folding a sequence of `logExchange` appends over the default empty
chain. -/
def buildChain (H : Obj → String) (inputs : List LogInput) : Chain :=
  inputs.foldl
    (fun c inp => (logExchange H c inp.ts inp.query inp.response inp.kv inp.meta).2)
    emptyChain

/-! ## Object and walk lemmas for the chain proofs -/

theorem jget_cons_self {k : String} {v : JVal} {rest : Obj} :
    jget ((k, v) :: rest) k = v := by
  simp [jget, List.find?]

theorem jget_jset_self : ∀ (o : Obj) (k : String) (v : JVal),
    jget (jset o k v) k = v := by
  intro o
  induction o with
  | nil => intro k v; simp [jset, jget, List.find?]
  | cons p rest ih =>
    intro k v
    obtain ⟨k0, v0⟩ := p
    show jget (if k0 = k then (k, v) :: rest else (k0, v0) :: jset rest k v) k = v
    by_cases h : k0 = k
    · rw [if_pos h]
      exact jget_cons_self
    · rw [if_neg h]
      show jget ((k0, v0) :: jset rest k v) k = v
      rw [show jget ((k0, v0) :: jset rest k v) k = jget (jset rest k v) k by
        simp [jget, List.find?, h]]
      exact ih k v

theorem jget_jset_other : ∀ (o : Obj) (k k2 : String) (v : JVal), k ≠ k2 →
    jget (jset o k v) k2 = jget o k2 := by
  intro o
  induction o with
  | nil =>
    intro k k2 v h
    simp [jset, jget, List.find?, h]
  | cons p rest ih =>
    intro k k2 v h
    obtain ⟨k0, v0⟩ := p
    show jget (if k0 = k then (k, v) :: rest else (k0, v0) :: jset rest k v) k2
        = jget ((k0, v0) :: rest) k2
    by_cases h0 : k0 = k
    · rw [if_pos h0]
      subst h0
      simp [jget, List.find?, h]
    · rw [if_neg h0]
      by_cases h2 : k0 = k2
      · subst h2
        simp [jget, List.find?]
      · rw [show jget ((k0, v0) :: jset rest k v) k2 = jget (jset rest k v) k2 by
          simp [jget, List.find?, h2],
          show jget ((k0, v0) :: rest) k2 = jget rest k2 by
          simp [jget, List.find?, h2]]
        exact ih k k2 v h

theorem jset_jset_same : ∀ (o : Obj) (k : String) (v w : JVal),
    jset (jset o k v) k w = jset o k w := by
  intro o
  induction o with
  | nil => intro k v w; simp [jset]
  | cons p rest ih =>
    intro k v w
    obtain ⟨k0, v0⟩ := p
    by_cases h : k0 = k
    · simp [jset, h]
    · simp [jset, h, ih]

theorem jset_append_of_notIn : ∀ (o : Obj) (k : String) (v : JVal),
    k ∉ o.map Prod.fst → jset o k v = o ++ [(k, v)] := by
  intro o
  induction o with
  | nil => intro k v _; rfl
  | cons p rest ih =>
    intro k v h
    obtain ⟨k0, v0⟩ := p
    simp only [List.map_cons, List.mem_cons] at h
    push_neg at h
    show (if k0 = k then (k, v) :: rest else (k0, v0) :: jset rest k v) = _
    rw [if_neg (fun hc => h.1 hc.symm), ih k v h.2]
    rfl

theorem jset_mid_of_notIn : ∀ (o : Obj) (k : String) (x v : JVal) (rest : Obj),
    k ∉ o.map Prod.fst → jset (o ++ (k, x) :: rest) k v = o ++ (k, v) :: rest := by
  intro o
  induction o with
  | nil => intro k x v rest _; simp [jset]
  | cons p t ih =>
    intro k x v rest h
    obtain ⟨k0, v0⟩ := p
    simp only [List.map_cons, List.mem_cons] at h
    push_neg at h
    show (if k0 = k then _ else (k0, v0) :: jset (t ++ (k, x) :: rest) k v) = _
    rw [if_neg (fun hc => h.1 hc.symm), ih k x v rest h.2]
    rfl

theorem notIn_jset : ∀ (o : Obj) (k k2 : String) (v : JVal),
    k ∉ o.map Prod.fst → k2 ≠ k → k ∉ (jset o k2 v).map Prod.fst := by
  intro o
  induction o with
  | nil =>
    intro k k2 v _ h2
    simp [jset, h2.symm]
  | cons p t ih =>
    intro k k2 v h h2
    obtain ⟨k0, v0⟩ := p
    simp only [List.map_cons, List.mem_cons] at h
    push_neg at h
    by_cases h0 : k0 = k2
    · simp only [jset, if_pos h0, List.map_cons, List.mem_cons]
      push_neg
      exact ⟨fun hc => h2 hc.symm, h.2⟩
    · simp only [jset, if_neg h0, List.map_cons, List.mem_cons]
      push_neg
      exact ⟨h.1, ih k k2 v h.2 h2⟩

theorem objAssign_notIn : ∀ (updates base : Obj) (k : String),
    k ∉ base.map Prod.fst → k ∉ updates.map Prod.fst →
    k ∉ (objAssign base updates).map Prod.fst := by
  intro updates
  induction updates with
  | nil => intro base k hb _; exact hb
  | cons p t ih =>
    intro base k hb hu
    obtain ⟨k0, v0⟩ := p
    simp only [List.map_cons, List.mem_cons] at hu
    push_neg at hu
    show k ∉ (objAssign (jset base k0 v0) t).map Prod.fst
    exact ih (jset base k0 v0) k
      (notIn_jset base k k0 v0 hb (fun hc => hu.1 hc.symm)) hu.2

theorem jget_objAssign_notIn : ∀ (updates base : Obj) (k : String),
    k ∉ updates.map Prod.fst →
    jget (objAssign base updates) k = jget base k := by
  intro updates
  induction updates with
  | nil => intro base k _; rfl
  | cons p t ih =>
    intro base k hu
    obtain ⟨k0, v0⟩ := p
    simp only [List.map_cons, List.mem_cons] at hu
    push_neg at hu
    show jget (objAssign (jset base k0 v0) t) k = jget base k
    rw [ih (jset base k0 v0) k hu.2,
      jget_jset_other base k0 k v0 (fun hc => hu.1 hc.symm)]

theorem dropUndefVals_append (a b : Obj) :
    dropUndefVals (a ++ b) = dropUndefVals a ++ dropUndefVals b := by
  simp [dropUndefVals, List.filter_append]

/-- Recomputing the hash of a block that `logExchange` just built (content
fields without `hash`/`prevHash` keys, then `hash` and `prevHash` assigned)
gives back exactly the hash `logExchange` stored. -/
theorem recompute_append_built (H : Obj → String) (blockObj : Obj)
    (h : String) (pv : JVal)
    (hh : "hash" ∉ blockObj.map Prod.fst)
    (hp : "prevHash" ∉ blockObj.map Prod.fst) :
    recomputedHash H (jset (jset blockObj "hash" (.str h)) "prevHash" pv) pv
      = hashBlock H blockObj pv := by
  have h1 : jset blockObj "hash" (.str h) = blockObj ++ [("hash", .str h)] :=
    jset_append_of_notIn blockObj "hash" (.str h) hh
  have hp1 : "prevHash" ∉ (blockObj ++ [("hash", JVal.str h)]).map Prod.fst := by
    simp only [List.map_append, List.mem_append]
    push_neg
    exact ⟨hp, by simp⟩
  have h2 : jset (blockObj ++ [("hash", JVal.str h)]) "prevHash" pv
      = blockObj ++ [("hash", .str h), ("prevHash", pv)] := by
    rw [jset_append_of_notIn _ "prevHash" pv hp1]
    simp
  have h3 : jset (blockObj ++ [("hash", JVal.str h), ("prevHash", pv)])
        "hash" .undefVal
      = blockObj ++ [("hash", .undefVal), ("prevHash", pv)] := by
    have := jset_mid_of_notIn blockObj "hash" (.str h) .undefVal [("prevHash", pv)] hh
    simpa using this
  have h4 : jset (blockObj ++ [("hash", JVal.undefVal), ("prevHash", pv)])
        "prevHash" .undefVal
      = blockObj ++ [("hash", .undefVal), ("prevHash", .undefVal)] := by
    have := jset_mid_of_notIn (blockObj ++ [("hash", JVal.undefVal)]) "prevHash"
      pv .undefVal []
      (by simp only [List.map_append, List.mem_append]
          push_neg
          exact ⟨hp, by decide⟩)
    simpa [List.append_assoc] using this
  have h5 : jset (blockObj ++ [("hash", JVal.undefVal), ("prevHash", JVal.undefVal)])
        "prevHash" pv
      = blockObj ++ [("hash", .undefVal), ("prevHash", pv)] := by
    have := jset_mid_of_notIn (blockObj ++ [("hash", JVal.undefVal)]) "prevHash"
      .undefVal pv []
      (by simp only [List.map_append, List.mem_append]
          push_neg
          exact ⟨hp, by decide⟩)
    simpa [List.append_assoc] using this
  have h6 : jset blockObj "prevHash" pv = blockObj ++ [("prevHash", pv)] :=
    jset_append_of_notIn blockObj "prevHash" pv hp
  unfold recomputedHash hashBlock
  rw [h1, h2, h3, h4, h5, h6, dropUndefVals_append, dropUndefVals_append]
  have hdrop : dropUndefVals [("hash", JVal.undefVal), ("prevHash", pv)]
      = dropUndefVals [("prevHash", pv)] := by
    simp [dropUndefVals, List.filter]
  rw [hdrop]

theorem getLast?_cons_ne_none : ∀ (t : List Obj) (c : Obj),
    (c :: t).getLast? ≠ none := by
  intro t
  induction t with
  | nil => intro c; simp
  | cons d t2 ih => intro c; rw [List.getLast?_cons_cons]; exact ih d

theorem walkEnd_getLast : ∀ (bs : List Obj) (prev : JVal),
    walkEnd prev bs = (match bs.getLast? with
      | some b => jget b "hash"
      | none => prev) := by
  intro bs
  induction bs with
  | nil => intro prev; rfl
  | cons b rest ih =>
    intro prev
    show walkEnd (jget b "hash") rest = _
    rw [ih (jget b "hash")]
    cases rest with
    | nil => rfl
    | cons c t =>
      cases hgl : (c :: t).getLast? with
      | none => exact absurd hgl (getLast?_cons_ne_none t c)
      | some r => simp [List.getLast?_cons_cons, hgl]

theorem walkEnd_append : ∀ (bs cs : List Obj) (prev : JVal),
    walkEnd prev (bs ++ cs) = walkEnd (walkEnd prev bs) cs := by
  intro bs
  induction bs with
  | nil => intro cs prev; rfl
  | cons b rest ih => intro cs prev; exact ih cs (jget b "hash")

theorem verifyGo_append_one (H : Obj → String) :
    ∀ (bs : List Obj) (b : Obj) (prev : JVal),
      verifyGo H (bs ++ [b]) prev
        = verifyGo H bs prev ++ blockStepErrs H b (walkEnd prev bs) := by
  intro bs
  induction bs with
  | nil => intro b prev; simp [verifyGo, walkEnd]
  | cons x rest ih =>
    intro b prev
    show blockStepErrs H x prev ++ verifyGo H (rest ++ [b]) (jget x "hash") = _
    rw [ih b (jget x "hash")]
    simp [verifyGo, walkEnd]

theorem linksOk_append_one : ∀ (bs : List Obj) (b : Obj) (prev : JVal),
    linksOk prev bs → jget b "prevHash" = walkEnd prev bs →
    linksOk prev (bs ++ [b]) := by
  intro bs
  induction bs with
  | nil =>
    intro b prev _ hb
    exact ⟨hb, trivial⟩
  | cons x rest ih =>
    intro b prev hl hb
    exact ⟨hl.1, ih b (jget x "hash") hl.2 hb⟩

/-! ## Per-append block lemmas -/

theorem chainPrevHash_walkEnd (c : Chain) :
    chainPrevHash c = walkEnd (.str zeroHash) c.blocks :=
  (walkEnd_getLast c.blocks (.str zeroHash)).symm

theorem logBase_keys (c : Chain) (ts q r : String) (kv : Tag) (m : Obj) :
    (logBase c ts q r kv m).map Prod.fst
      = ["id", "timestamp", "query", "response", "kVector", "suit",
         "polarity", "rank", "tier", "tokens"] := rfl

theorem logContent_notIn (c : Chain) (ts q r : String) (kv : Tag) (m : Obj)
    (k : String)
    (hk : k ∉ ["id", "timestamp", "query", "response", "kVector", "suit",
      "polarity", "rank", "tier", "tokens"])
    (hm : k ∉ m.map Prod.fst) :
    k ∉ (logContent c ts q r kv m).map Prod.fst := by
  refine objAssign_notIn m (logBase c ts q r kv m) k ?_ hm
  rw [logBase_keys]
  exact hk

theorem logBlock_prevHash (H : Obj → String) (c : Chain) (ts q r : String)
    (kv : Tag) (m : Obj) :
    jget (logBlock H c ts q r kv m) "prevHash" = chainPrevHash c :=
  jget_jset_self _ _ _

theorem logBlock_hash (H : Obj → String) (c : Chain) (ts q r : String)
    (kv : Tag) (m : Obj) :
    jget (logBlock H c ts q r kv m) "hash"
      = .str (hashBlock H (logContent c ts q r kv m) (chainPrevHash c)) := by
  unfold logBlock
  rw [jget_jset_other _ "prevHash" "hash" _ (by decide)]
  exact jget_jset_self _ _ _

theorem logBlock_recompute (H : Obj → String) (c : Chain) (ts q r : String)
    (kv : Tag) (m : Obj)
    (hmh : "hash" ∉ m.map Prod.fst)
    (hmp : "prevHash" ∉ m.map Prod.fst) :
    recomputedHash H (logBlock H c ts q r kv m) (chainPrevHash c)
      = hashBlock H (logContent c ts q r kv m) (chainPrevHash c) :=
  recompute_append_built H (logContent c ts q r kv m) _ (chainPrevHash c)
    (logContent_notIn c ts q r kv m "hash" (by decide) hmh)
    (logContent_notIn c ts q r kv m "prevHash" (by decide) hmp)

theorem logBlock_stepErrs (H : Obj → String) (c : Chain) (ts q r : String)
    (kv : Tag) (m : Obj)
    (hmh : "hash" ∉ m.map Prod.fst)
    (hmp : "prevHash" ∉ m.map Prod.fst) :
    blockStepErrs H (logBlock H c ts q r kv m)
      (walkEnd (.str zeroHash) c.blocks) = [] := by
  rw [← chainPrevHash_walkEnd]
  unfold blockStepErrs
  rw [logBlock_prevHash, logBlock_hash, logBlock_recompute H c ts q r kv m hmh hmp]
  simp

theorem logBlock_id (H : Obj → String) (c : Chain) (ts q r : String)
    (kv : Tag) (m : Obj) (hmi : "id" ∉ m.map Prod.fst) :
    jget (logBlock H c ts q r kv m) "id" = .num (c.blocks.length + 1) := by
  unfold logBlock
  rw [jget_jset_other _ "prevHash" "id" _ (by decide),
    jget_jset_other _ "hash" "id" _ (by decide)]
  unfold logContent
  rw [jget_objAssign_notIn m _ "id" hmi]
  exact jget_cons_self

/-! ## Claims C8 and C4 -/

theorem buildChain_verify_aux (H : Obj → String) :
    ∀ (inputs : List LogInput) (c : Chain),
      (∀ inp ∈ inputs, "hash" ∉ inp.meta.map Prod.fst ∧
        "prevHash" ∉ inp.meta.map Prod.fst) →
      verifyGo H c.blocks (.str zeroHash) = [] →
      verifyGo H
        (inputs.foldl
          (fun c inp =>
            (logExchange H c inp.ts inp.query inp.response inp.kv inp.meta).2) c).blocks
        (.str zeroHash) = [] := by
  intro inputs
  induction inputs with
  | nil => intro c _ hv; exact hv
  | cons inp rest ih =>
    intro c hm hv
    simp only [List.foldl_cons]
    refine ih _ (fun i hi => hm i (List.mem_cons_of_mem inp hi)) ?_
    show verifyGo H
      (c.blocks ++ [logBlock H c inp.ts inp.query inp.response inp.kv inp.meta])
      (.str zeroHash) = []
    rw [verifyGo_append_one, hv,
      logBlock_stepErrs H c inp.ts inp.query inp.response inp.kv inp.meta
        (hm inp (List.mem_cons_self inp rest)).1
        (hm inp (List.mem_cons_self inp rest)).2]
    rfl

/-- C8: a chain produced solely by `logExchange` appends whose metadata
contains no `hash` or `prevHash` keys verifies as valid with zero errors:
for every block, the hash `verifyChain` recomputes from the stored fields
(with `hash` and `prevHash` blanked to `undefined`, which the serializer
then omits) together with the preceding block's stored hash equals the
stored hash, and every stored `prevHash` matches the running link — for
every choice of the digest function `H`. -/
theorem append_only_chain_verifies (H : Obj → String) (inputs : List LogInput)
    (hm : ∀ inp ∈ inputs, "hash" ∉ inp.meta.map Prod.fst ∧
      "prevHash" ∉ inp.meta.map Prod.fst) :
    verifyChain H (buildChain H inputs) = ⟨true, []⟩ := by
  have hv : verifyGo H (buildChain H inputs).blocks (.str zeroHash) = [] :=
    buildChain_verify_aux H inputs emptyChain hm rfl
  unfold verifyChain
  by_cases hb : (buildChain H inputs).blocks.isEmpty
  · rw [if_pos hb]
  · rw [if_neg hb]
    rw [hv]
    rfl

/-- C8 witness: a two-block chain with tier/token metadata verifies as
valid with zero errors under a concrete digest function. -/
theorem append_only_chain_verifies_witness :
    verifyChain (fun o => String.join (o.map (fun p => jsDisplay p.2)))
      (buildChain (fun o => String.join (o.map (fun p => jsDisplay p.2)))
        [⟨"t1", "q1", "r1", ⟨"hearts", "+", 3, "+3H", "d", ⟨false, "routable"⟩⟩,
          [("tier", .str "local"), ("tokens", .num 5)]⟩,
         ⟨"t2", "q2", "r2", ⟨"spades", "-", 8, "-8S", "d", ⟨false, "routable"⟩⟩,
          []⟩])
      = ⟨true, []⟩ :=
  append_only_chain_verifies _ _ (by decide)

theorem buildChain_links_aux (H : Obj → String) :
    ∀ (inputs : List LogInput) (c : Chain),
      linksOk (.str zeroHash) c.blocks →
      linksOk (.str zeroHash)
        (inputs.foldl
          (fun c inp =>
            (logExchange H c inp.ts inp.query inp.response inp.kv inp.meta).2) c).blocks := by
  intro inputs
  induction inputs with
  | nil => intro c hlk; exact hlk
  | cons inp rest ih =>
    intro c hlk
    simp only [List.foldl_cons]
    refine ih _ ?_
    show linksOk (.str zeroHash)
      (c.blocks ++ [logBlock H c inp.ts inp.query inp.response inp.kv inp.meta])
    refine linksOk_append_one c.blocks _ (.str zeroHash) hlk ?_
    rw [logBlock_prevHash, chainPrevHash_walkEnd]

theorem buildChain_ids_aux (H : Obj → String) :
    ∀ (inputs : List LogInput) (c : Chain),
      (∀ inp ∈ inputs, "id" ∉ inp.meta.map Prod.fst) →
      (c.blocks.map (fun b => jget b "id")
        = (List.range c.blocks.length).map (fun (i : Nat) => JVal.num ((i : Int) + 1))) →
      ((inputs.foldl
          (fun c inp =>
            (logExchange H c inp.ts inp.query inp.response inp.kv inp.meta).2) c).blocks.map
        (fun b => jget b "id")
        = (List.range
            (inputs.foldl
              (fun c inp =>
                (logExchange H c inp.ts inp.query inp.response inp.kv inp.meta).2) c).blocks.length).map
            (fun (i : Nat) => JVal.num ((i : Int) + 1))) := by
  intro inputs
  induction inputs with
  | nil => intro c _ hid; exact hid
  | cons inp rest ih =>
    intro c hm hid
    simp only [List.foldl_cons]
    refine ih _ (fun i hi => hm i (List.mem_cons_of_mem inp hi)) ?_
    show (c.blocks ++ [logBlock H c inp.ts inp.query inp.response inp.kv inp.meta]).map
        (fun b => jget b "id")
      = (List.range
          (c.blocks ++ [logBlock H c inp.ts inp.query inp.response inp.kv inp.meta]).length).map
        (fun (i : Nat) => JVal.num ((i : Int) + 1))
    rw [List.map_append, hid, List.length_append]
    simp only [List.map_cons, List.map_nil, List.length_cons, List.length_nil]
    rw [logBlock_id H c inp.ts inp.query inp.response inp.kv inp.meta
      (hm inp (List.mem_cons_self inp rest))]
    rw [show c.blocks.length + (0 + 1) = c.blocks.length + 1 by omega,
      List.range_succ, List.map_append]
    rfl

/-- C4 (amended): for every sequence of `logExchange` appends and any
metadata at all, each appended block's `prevHash` equals the stored hash of
the immediately preceding block, the first block's `prevHash` being the
all-zero sentinel (those two fields are assigned after the metadata
spread); and provided no append's metadata object contains an `id` key,
the blocks carry the sequential ids 1, 2, 3, …. -/
theorem logExchange_ids_and_links (H : Obj → String) (inputs : List LogInput) :
    linksOk (.str zeroHash) (buildChain H inputs).blocks ∧
    ((∀ inp ∈ inputs, "id" ∉ inp.meta.map Prod.fst) →
      (buildChain H inputs).blocks.map (fun b => jget b "id")
        = (List.range inputs.length).map (fun (i : Nat) => JVal.num ((i : Int) + 1))) := by
  have hlen : (buildChain H inputs).blocks.length = inputs.length := by
    have haux : ∀ (l : List LogInput) (c : Chain),
        (l.foldl
          (fun c inp =>
            (logExchange H c inp.ts inp.query inp.response inp.kv inp.meta).2) c).blocks.length
          = c.blocks.length + l.length := by
      intro l
      induction l with
      | nil => intro c; simp
      | cons x t ihl =>
        intro c
        simp only [List.foldl_cons]
        rw [ihl]
        show (c.blocks ++ [logBlock H c x.ts x.query x.response x.kv x.meta]).length
            + t.length = c.blocks.length + (t.length + 1)
        rw [List.length_append]
        simp
        omega
    have := haux inputs emptyChain
    simpa [buildChain, emptyChain] using this
  refine ⟨buildChain_links_aux H inputs emptyChain trivial, ?_⟩
  intro hm
  have hid := buildChain_ids_aux H inputs emptyChain hm (by rfl)
  rw [← hlen]
  exact hid

/-- C4 counterexample: an append whose metadata carries an `id` key does
not receive the sequential id — the `...metadata` spread comes after the
`id:` field of the block literal and overwrites it, so the first appended
block gets id 99 instead of 1. -/
theorem logExchange_metadata_id_clobber :
    ((logExchange (fun _ => "h") emptyChain "t" "q" "r"
        ⟨"hearts", "+", 3, "+3H", "d", ⟨false, "routable"⟩⟩
        [("id", .num 99)]).2.blocks.map (fun b => jget b "id"))
      = [JVal.num 99] ∧
    ((logExchange (fun _ => "h") emptyChain "t" "q" "r"
        ⟨"hearts", "+", 3, "+3H", "d", ⟨false, "routable"⟩⟩
        [("id", .num 99)]).2.blocks.map (fun b => jget b "id"))
      ≠ [JVal.num 1] := by
  refine ⟨rfl, by decide⟩

/-- C4 witness: two appends with ordinary metadata receive ids 1 and 2 and
well-formed hash links. -/
theorem logExchange_ids_and_links_witness :
    ((buildChain (fun _ => "h")
      [⟨"t1", "q1", "r1", ⟨"hearts", "+", 3, "+3H", "d", ⟨false, "routable"⟩⟩,
        [("tier", .str "local"), ("tokens", .num 5)]⟩,
       ⟨"t2", "q2", "r2", ⟨"spades", "-", 8, "-8S", "d", ⟨false, "routable"⟩⟩,
        []⟩]).blocks.map (fun b => jget b "id"))
      = [JVal.num 1, JVal.num 2] := by
  have h := (logExchange_ids_and_links (fun _ => "h")
    [⟨"t1", "q1", "r1", ⟨"hearts", "+", 3, "+3H", "d", ⟨false, "routable"⟩⟩,
      [("tier", .str "local"), ("tokens", .num 5)]⟩,
     ⟨"t2", "q2", "r2", ⟨"spades", "-", 8, "-8S", "d", ⟨false, "routable"⟩⟩,
      []⟩]).2 (by decide)
  rw [h]
  rfl

/-! ## Claim C5 -/

/-- Mutating one field of a persisted block in place. -/
def mutateBlockField (chain : Chain) (i : Nat) (k : String) (v : JVal) : Chain :=
  ⟨chain.blocks.set i (jset (chain.blocks.getD i []) k v), chain.metadata⟩

theorem stepErrs_nil_iff (H : Obj → String) (b : Obj) (prev : JVal) :
    blockStepErrs H b prev = [] ↔
      (jget b "prevHash" = prev ∧
       jget b "hash" = .str (recomputedHash H b prev)) := by
  by_cases h1 : jget b "prevHash" = prev <;>
    by_cases h2 : jget b "hash" = .str (recomputedHash H b prev) <;>
      simp [blockStepErrs, h1, h2]

theorem mem_stepErrs_prev (H : Obj → String) (b : Obj) (prev : JVal)
    (h : jget b "prevHash" ≠ prev) :
    (blockErrPrefix b ++ ": prevHash mismatch") ∈ blockStepErrs H b prev := by
  unfold blockStepErrs
  rw [if_pos h]
  exact List.mem_append_left _ (List.mem_singleton.mpr rfl)

theorem mem_stepErrs_hash (H : Obj → String) (b : Obj) (prev : JVal)
    (h : jget b "hash" ≠ .str (recomputedHash H b prev)) :
    (blockErrPrefix b ++ ": hash mismatch") ∈ blockStepErrs H b prev := by
  unfold blockStepErrs
  rw [if_pos h]
  exact List.mem_append_right _ (List.mem_singleton.mpr rfl)

/-- In a walk with no errors, every block passes its step checks against
the running hash of the preceding blocks. -/
theorem verifyGo_nil_pointwise (H : Obj → String) :
    ∀ (bs : List Obj) (prev : JVal) (i : Nat),
      verifyGo H bs prev = [] → i < bs.length →
      blockStepErrs H (bs.getD i []) (walkEnd prev (bs.take i)) = [] := by
  intro bs
  induction bs with
  | nil => intro prev i _ hi; simp at hi
  | cons b rest ih =>
    intro prev i hv hi
    have hsplit := List.append_eq_nil.mp hv
    cases i with
    | zero => exact hsplit.1
    | succ j =>
      have hj : j < rest.length := by simpa using hi
      exact ih (jget b "hash") j hsplit.2 hj

/-- An error of the step check of a replacement block, evaluated against
the running hash of the unchanged preceding blocks, appears among the
errors of the walk over the mutated list. -/
theorem verifyGo_set_mem (H : Obj → String) :
    ∀ (bs : List Obj) (prev : JVal) (i : Nat) (b2 : Obj) (msg : String),
      i < bs.length →
      msg ∈ blockStepErrs H b2 (walkEnd prev (bs.take i)) →
      msg ∈ verifyGo H (bs.set i b2) prev := by
  intro bs
  induction bs with
  | nil => intro prev i b2 msg hi; simp at hi
  | cons b rest ih =>
    intro prev i b2 msg hi hmem
    cases i with
    | zero =>
      show msg ∈ blockStepErrs H b2 prev ++ verifyGo H rest (jget b2 "hash")
      exact List.mem_append_left _ hmem
    | succ j =>
      have hj : j < rest.length := by simpa using hi
      show msg ∈ blockStepErrs H b prev
          ++ verifyGo H (rest.set j b2) (jget b "hash")
      exact List.mem_append_right _ (ih (jget b "hash") j b2 msg hj hmem)

theorem recomputedHash_jset_hash (H : Obj → String) (b : Obj) (v : JVal)
    (prev : JVal) :
    recomputedHash H (jset b "hash" v) prev = recomputedHash H b prev := by
  unfold recomputedHash hashBlock
  rw [show jset (jset b "hash" v) "hash" JVal.undefVal
      = jset b "hash" JVal.undefVal from jset_jset_same b "hash" v JVal.undefVal]

/-- C5: take any chain that `verify()` accepts and mutate any one field of
any persisted block to a different value; as long as a content-field
mutation changes the recomputed truncated digest (the collision-freeness
the spec's tamper-detection tradeoff assumes), `verify()` reports an
integrity error naming the mutated block's id, and the chain is no longer
valid.  Additionally: `verify` returns `valid` iff its error list is
empty, and an empty chain verifies as valid with zero errors — all as
data; the embedded `verifyChain` is a total function and cannot throw. -/
theorem verify_detects_mutation (H : Obj → String) (chain : Chain) (i : Nat)
    (k : String) (v : JVal)
    (hval : (verifyChain H chain).valid = true)
    (hi : i < chain.blocks.length)
    (hchange : jget (chain.blocks.getD i []) k ≠ v)
    (hcoll : k ≠ "hash" → k ≠ "prevHash" →
      recomputedHash H (jset (chain.blocks.getD i []) k v)
          (walkEnd (.str zeroHash) (chain.blocks.take i))
        ≠ recomputedHash H (chain.blocks.getD i [])
          (walkEnd (.str zeroHash) (chain.blocks.take i))) :
    ((verifyChain H (mutateBlockField chain i k v)).valid = false ∧
     (∃ msg ∈ (verifyChain H (mutateBlockField chain i k v)).errors,
        msg = blockErrPrefix (jset (chain.blocks.getD i []) k v)
            ++ ": prevHash mismatch" ∨
        msg = blockErrPrefix (jset (chain.blocks.getD i []) k v)
            ++ ": hash mismatch")) ∧
    (∀ c : Chain, (verifyChain H c).valid = true ↔ (verifyChain H c).errors = []) ∧
    verifyChain H ⟨[], chain.metadata⟩ = ⟨true, []⟩ := by
  have hiff : ∀ c : Chain,
      (verifyChain H c).valid = true ↔ (verifyChain H c).errors = [] := by
    intro c
    unfold verifyChain
    by_cases hb : c.blocks.isEmpty
    · rw [if_pos hb]
      simp
    · rw [if_neg hb]
      show (verifyGo H c.blocks (.str zeroHash)).isEmpty = true ↔ _
      exact List.isEmpty_iff
  have hne : ¬ chain.blocks.isEmpty = true := by
    intro hc
    rw [List.isEmpty_iff.mp hc] at hi
    simp at hi
  have hvg : verifyGo H chain.blocks (.str zeroHash) = [] := by
    have := (hiff chain).mp hval
    unfold verifyChain at this
    rw [if_neg hne] at this
    exact this
  have hstep := verifyGo_nil_pointwise H chain.blocks (.str zeroHash) i hvg hi
  obtain ⟨hbp, hbh⟩ := (stepErrs_nil_iff H _ _).mp hstep
  -- the error the mutated block produces
  have hmsg : ∃ msg ∈ blockStepErrs H (jset (chain.blocks.getD i []) k v)
      (walkEnd (.str zeroHash) (chain.blocks.take i)),
      msg = blockErrPrefix (jset (chain.blocks.getD i []) k v)
          ++ ": prevHash mismatch" ∨
      msg = blockErrPrefix (jset (chain.blocks.getD i []) k v)
          ++ ": hash mismatch" := by
    by_cases hk2 : k = "prevHash"
    · subst hk2
      refine ⟨_, mem_stepErrs_prev H _ _ ?_, Or.inl rfl⟩
      rw [jget_jset_self]
      rw [hbp] at hchange
      exact fun hc => hchange hc.symm
    · by_cases hk1 : k = "hash"
      · subst hk1
        refine ⟨_, mem_stepErrs_hash H _ _ ?_, Or.inr rfl⟩
        rw [jget_jset_self, recomputedHash_jset_hash]
        rw [hbh] at hchange
        exact fun hc => hchange hc.symm
      · refine ⟨_, mem_stepErrs_hash H _ _ ?_, Or.inr rfl⟩
        rw [jget_jset_other _ k "hash" v hk1, hbh]
        intro hc
        have hc2 := JVal.str.inj hc
        exact hcoll hk1 hk2 hc2.symm
  obtain ⟨msg, hmem, hform⟩ := hmsg
  have hmem2 : msg ∈ verifyGo H
      (chain.blocks.set i (jset (chain.blocks.getD i []) k v)) (.str zeroHash) :=
    verifyGo_set_mem H chain.blocks (.str zeroHash) i _ msg hi hmem
  have hne2 : ¬ (mutateBlockField chain i k v).blocks.isEmpty = true := by
    intro hc
    have := List.isEmpty_iff.mp hc
    unfold mutateBlockField at this
    have hlen := congrArg List.length this
    rw [List.length_set, List.length_nil] at hlen
    omega
  have herr : (verifyChain H (mutateBlockField chain i k v)).errors
      = verifyGo H (chain.blocks.set i (jset (chain.blocks.getD i []) k v))
        (.str zeroHash) := by
    unfold verifyChain
    rw [if_neg hne2]
    rfl
  refine ⟨⟨?_, ⟨msg, by rw [herr]; exact hmem2, hform⟩⟩, hiff, rfl⟩
  have hnonnil : (verifyChain H (mutateBlockField chain i k v)).errors ≠ [] := by
    rw [herr]
    exact List.ne_nil_of_mem hmem2
  cases hv : (verifyChain H (mutateBlockField chain i k v)).valid with
  | false => rfl
  | true => exact absurd ((hiff _).mp hv) hnonnil

/-- A sample concrete digest function used to instantiate the abstract
hash `H` of the chain embedding in witnesses. -/
def digestSample : Obj → String :=
  fun o => String.join (o.map (fun p => p.1 ++ "=" ++ jsDisplay p.2 ++ ";"))

/-- C5 witness: on a one-block chain, mutating the block's `query` field is
reported by `verify` under the sample digest. -/
theorem verify_detects_mutation_witness :
    (verifyChain digestSample
      (mutateBlockField
        (logExchange digestSample emptyChain "t1" "q1" "r1"
          ⟨"hearts", "+", 3, "+3H", "d", ⟨false, "routable"⟩⟩ []).2
        0 "query" (.str "evil"))).valid = false :=
  (verify_detects_mutation digestSample
    (logExchange digestSample emptyChain "t1" "q1" "r1"
      ⟨"hearts", "+", 3, "+3H", "d", ⟨false, "routable"⟩⟩ []).2
    0 "query" (.str "evil")
    (by decide) (by decide) (by decide)
    (fun hk1 hk2 => by decide)).1.1

end KContext
